import Mathlib

/-!
Verification of the streaming multi-protocol message framer in this repository.

The development shallowly embeds the C source:

* the CRC32 kernel and lookup table (`Message_Parser.c`),
* the SEMP dispatcher (`sempFirstByte` / `sempParseNextByte` in
  `my_parser/Message_Parser.c`) together with the BT/SEMP ("custom") protocol
  machine (`my_parser/Parse_Custom.c`),
* the MP-draft protocol machines (`my_parser/Parse_NMEA.c`,
  `my_parser/Parse_UBLOX.c`, `my_parser/Parse_RTCM.c`),
* the single-protocol framework of `src/semp_parser.c` with its buffer entry
  point `sempProcessBuffer`.

Machine integers are modelled as `Nat` with explicit masks and an explicit
16-bit decrement where C unsigned wrap-around matters.  Buffers are modelled
as the list of committed bytes (every C buffer write in the embedded code is a
write at index `length` followed by `length++`, i.e. an append, or a
`length -= 1`, i.e. `dropLast`).  Caller-supplied sinks are modelled as an
event trace; the optional bad-CRC callback is modelled as a configured
constant boolean result (`Option Bool`).
-/

namespace MyParser

/-- CRC32 lookup table `semp_crc32Table` from `src/my_parser/Message_Parser.c`
(the byte-identical table also appears as `mmp_crc32Table` in
`multi_protocol_parser.c` and as `semp_crc32Table` in `semp_parser.c`). -/
def semp_crc32Table : List Nat := [
  0x00000000, 0x77073096, 0xEE0E612C, 0x990951BA, 0x076DC419, 0x706AF48F,
  0xE963A535, 0x9E6495A3, 0x0EDB8832, 0x79DCB8A4, 0xE0D5E91E, 0x97D2D988,
  0x09B64C2B, 0x7EB17CBD, 0xE7B82D07, 0x90BF1D91, 0x1DB71064, 0x6AB020F2,
  0xF3B97148, 0x84BE41DE, 0x1ADAD47D, 0x6DDDE4EB, 0xF4D4B551, 0x83D385C7,
  0x136C9856, 0x646BA8C0, 0xFD62F97A, 0x8A65C9EC, 0x14015C4F, 0x63066CD9,
  0xFA0F3D63, 0x8D080DF5, 0x3B6E20C8, 0x4C69105E, 0xD56041E4, 0xA2677172,
  0x3C03E4D1, 0x4B04D447, 0xD20D85FD, 0xA50AB56B, 0x35B5A8FA, 0x42B2986C,
  0xDBBBC9D6, 0xACBCF940, 0x32D86CE3, 0x45DF5C75, 0xDCD60DCF, 0xABD13D59,
  0x26D930AC, 0x51DE003A, 0xC8D75180, 0xBFD06116, 0x21B4F4B5, 0x56B3C423,
  0xCFBA9599, 0xB8BDA50F, 0x2802B89E, 0x5F058808, 0xC60CD9B2, 0xB10BE924,
  0x2F6F7C87, 0x58684C11, 0xC1611DAB, 0xB6662D3D, 0x76DC4190, 0x01DB7106,
  0x98D220BC, 0xEFD5102A, 0x71B18589, 0x06B6B51F, 0x9FBFE4A5, 0xE8B8D433,
  0x7807C9A2, 0x0F00F934, 0x9609A88E, 0xE10E9818, 0x7F6A0DBB, 0x086D3D2D,
  0x91646C97, 0xE6635C01, 0x6B6B51F4, 0x1C6C6162, 0x856530D8, 0xF262004E,
  0x6C0695ED, 0x1B01A57B, 0x8208F4C1, 0xF50FC457, 0x65B0D9C6, 0x12B7E950,
  0x8BBEB8EA, 0xFCB9887C, 0x62DD1DDF, 0x15DA2D49, 0x8CD37CF3, 0xFBD44C65,
  0x4DB26158, 0x3AB551CE, 0xA3BC0074, 0xD4BB30E2, 0x4ADFA541, 0x3DD895D7,
  0xA4D1C46D, 0xD3D6F4FB, 0x4369E96A, 0x346ED9FC, 0xAD678846, 0xDA60B8D0,
  0x44042D73, 0x33031DE5, 0xAA0A4C5F, 0xDD0D7CC9, 0x5005713C, 0x270241AA,
  0xBE0B1010, 0xC90C2086, 0x5768B525, 0x206F85B3, 0xB966D409, 0xCE61E49F,
  0x5EDEF90E, 0x29D9C998, 0xB0D09822, 0xC7D7A8B4, 0x59B33D17, 0x2EB40D81,
  0xB7BD5C3B, 0xC0BA6CAD, 0xEDB88320, 0x9ABFB3B6, 0x03B6E20C, 0x74B1D29A,
  0xEAD54739, 0x9DD277AF, 0x04DB2615, 0x73DC1683, 0xE3630B12, 0x94643B84,
  0x0D6D6A3E, 0x7A6A5AA8, 0xE40ECF0B, 0x9309FF9D, 0x0A00AE27, 0x7D079EB1,
  0xF00F9344, 0x8708A3D2, 0x1E01F268, 0x6906C2FE, 0xF762575D, 0x806567CB,
  0x196C3671, 0x6E6B06E7, 0xFED41B76, 0x89D32BE0, 0x10DA7A5A, 0x67DD4ACC,
  0xF9B9DF6F, 0x8EBEEFF9, 0x17B7BE43, 0x60B08ED5, 0xD6D6A3E8, 0xA1D1937E,
  0x38D8C2C4, 0x4FDFF252, 0xD1BB67F1, 0xA6BC5767, 0x3FB506DD, 0x48B2364B,
  0xD80D2BDA, 0xAF0A1B4C, 0x36034AF6, 0x41047A60, 0xDF60EFC3, 0xA867DF55,
  0x316E8EEF, 0x4669BE79, 0xCB61B38C, 0xBC66831A, 0x256FD2A0, 0x5268E236,
  0xCC0C7795, 0xBB0B4703, 0x220216B9, 0x5505262F, 0xC5BA3BBE, 0xB2BD0B28,
  0x2BB45A92, 0x5CB36A04, 0xC2D7FFA7, 0xB5D0CF31, 0x2CD99E8B, 0x5BDEAE1D,
  0x9B64C2B0, 0xEC63F226, 0x756AA39C, 0x026D930A, 0x9C0906A9, 0xEB0E363F,
  0x72076785, 0x05005713, 0x95BF4A82, 0xE2B87A14, 0x7BB12BAE, 0x0CB61B38,
  0x92D28E9B, 0xE5D5BE0D, 0x7CDCEFB7, 0x0BDBDF21, 0x86D3D2D4, 0xF1D4E242,
  0x68DDB3F8, 0x1FDA836E, 0x81BE16CD, 0xF6B9265B, 0x6FB077E1, 0x18B74777,
  0x88085AE6, 0xFF0F6A70, 0x66063BCA, 0x11010B5C, 0x8F659EFF, 0xF862AE69,
  0x616BFFD3, 0x166CCF45, 0xA00AE278, 0xD70DD2EE, 0x4E048354, 0x3903B3C2,
  0xA7672661, 0xD06016F7, 0x4969474D, 0x3E6E77DB, 0xAED16A4A, 0xD9D65ADC,
  0x40DF0B66, 0x37D83BF0, 0xA9BCAE53, 0xDEBB9EC5, 0x47B2CF7F, 0x30B5FFE9,
  0xBDBDF21C, 0xCABAC28A, 0x53B39330, 0x24B4A3A6, 0xBAD03605, 0xCDD70693,
  0x54DE5729, 0x23D967BF, 0xB3667A2E, 0xC4614AB8, 0x5D681B02, 0x2A6F2B94,
  0xB40BBE37, 0xC30C8EA1, 0x5A05DF1B, 0x2D02EF8D]

/-- Table lookup, `semp_crc32Table[k]`. -/
def crcTab (k : Nat) : Nat := semp_crc32Table.getD k 0

/-- One streaming CRC32 step, `sempCustomComputeCrc` in `Parse_Custom.c`
(also `mmpSempComputeCrc`, `sempBluetoothComputeCrc`):
`crc = semp_crc32Table[(crc ^ data) & 0xff] ^ (crc >> 8)`. -/
def sempCustomComputeCrc (crc data : Nat) : Nat :=
  crcTab ((crc ^^^ data) &&& 0xff) ^^^ (crc >>> 8)

/-- Streaming CRC32 of a byte list starting from register value `init`. -/
def rawCrc (init : Nat) (bs : List Nat) : Nat :=
  List.foldl sempCustomComputeCrc init bs

/-- Finalized CRC32 of a byte list: init `0xFFFFFFFF`, final xor `0xFFFFFFFF`
(the BT/SEMP wire CRC, cf. `sempCustomReadData`). -/
def crc32fin (bs : List Nat) : Nat := rawCrc 0xFFFFFFFF bs ^^^ 0xFFFFFFFF

/-- Little-endian 32-bit read of four buffer bytes, as in `mpBtReadCrc`
(`custom_parser/Parse_BT.c`): `b0 | b1 << 8 | b2 << 16 | b3 << 24`. -/
def le32 (b0 b1 b2 b3 : Nat) : Nat :=
  b0 ||| (b1 <<< 8) ||| (b2 <<< 16) ||| (b3 <<< 24)

/-! ### Facts about the CRC table and the streaming step -/

set_option maxRecDepth 8192 in
theorem semp_crc32Table_length : semp_crc32Table.length = 256 := by decide

theorem crcTab_zero : crcTab 0 = 0 := rfl

set_option maxRecDepth 8192 in
theorem crcTab_lt_of_lt : ∀ k, k < 256 → crcTab k < 2 ^ 32 := by decide

theorem crcTab_lt (k : Nat) : crcTab k < 2 ^ 32 := by
  by_cases h : k < 256
  · exact crcTab_lt_of_lt k h
  · have hlen : semp_crc32Table.length ≤ k := by
      rw [semp_crc32Table_length]; omega
    unfold crcTab
    rw [List.getD_eq_default _ _ hlen]
    norm_num

set_option maxRecDepth 8192 in
theorem crcTab_big : ∀ k, k < 256 → k ≠ 0 → 2 ^ 24 ≤ crcTab k := by decide

theorem stepCrc_lt {s : Nat} (hs : s < 2 ^ 32) (c : Nat) :
    sempCustomComputeCrc s c < 2 ^ 32 := by
  unfold sempCustomComputeCrc
  apply Nat.xor_lt_two_pow (crcTab_lt _)
  rw [Nat.shiftRight_eq_div_pow]
  omega

theorem rawCrc_lt {init : Nat} (h : init < 2 ^ 32) (bs : List Nat) :
    rawCrc init bs < 2 ^ 32 := by
  induction bs generalizing init with
  | nil => exact h
  | cons b bs ih => exact ih (stepCrc_lt h b)

theorem crc32fin_lt (bs : List Nat) : crc32fin bs < 2 ^ 32 := by
  unfold crc32fin
  apply Nat.xor_lt_two_pow (rawCrc_lt (by norm_num) bs)
  norm_num

theorem and255_eq_mod (x : Nat) : x &&& 255 = x % 256 := by
  have h := Nat.and_pow_two_sub_one_eq_mod x 8
  norm_num at h
  exact h

/-- If `a` has a bit at or above position `k` and `b` has none, so does `a ^^^ b`. -/
theorem xor_ge_high {a b k : Nat} (ha : 2 ^ k ≤ a) (hb : b < 2 ^ k) :
    2 ^ k ≤ a ^^^ b := by
  by_contra hcon
  push_neg at hcon
  have ha' : a < 2 ^ k := by
    have h2 : a ^^^ b ^^^ b = a := by
      rw [Nat.xor_assoc, Nat.xor_self, Nat.xor_zero]
    calc a = a ^^^ b ^^^ b := h2.symm
    _ < 2 ^ k := Nat.xor_lt_two_pow hcon hb
  omega

/-- Feeding the low byte of the register shifts the register right by 8. -/
theorem stepCrc_low (s : Nat) : sempCustomComputeCrc s (s % 256) = s >>> 8 := by
  unfold sempCustomComputeCrc
  have hlt : s % 256 < 256 := Nat.mod_lt _ (by norm_num)
  have h1 : (s ^^^ s % 256) &&& 255 = 0 := by
    rw [Nat.and_xor_distrib_right, and255_eq_mod, and255_eq_mod,
      Nat.mod_eq_of_lt hlt, Nat.xor_self]
  rw [h1]
  rw [crcTab_zero, Nat.zero_xor]

/-- Inverse reading of one CRC step: if the step result is small, the input
register is determined by the result and the consumed byte. -/
theorem stepCrc_back {s c t : Nat} (hs : s < 2 ^ 32) (hc : c < 256)
    (ht : sempCustomComputeCrc s c = t) (hlt : t < 2 ^ 24) :
    s = 256 * t + c := by
  have hshift : s >>> 8 < 2 ^ 24 := by
    rw [Nat.shiftRight_eq_div_pow]
    omega
  have hi : (s ^^^ c) &&& 255 < 256 :=
    lt_of_le_of_lt Nat.and_le_right (by norm_num)
  have hizero : (s ^^^ c) &&& 255 = 0 := by
    by_contra h0
    have hbig := crcTab_big _ hi h0
    have hge : 2 ^ 24 ≤ sempCustomComputeCrc s c := by
      unfold sempCustomComputeCrc
      exact xor_ge_high hbig hshift
    rw [ht] at hge
    omega
  have ht' : t = s >>> 8 := by
    rw [← ht]
    unfold sempCustomComputeCrc
    rw [hizero, crcTab_zero, Nat.zero_xor]
  have hc' : s % 256 = c := by
    have hsplit : (s &&& 255) ^^^ (c &&& 255) = 0 := by
      rw [← Nat.and_xor_distrib_right, hizero]
    rw [and255_eq_mod, and255_eq_mod, Nat.mod_eq_of_lt hc] at hsplit
    exact Nat.xor_eq_zero.mp hsplit
  have hdm : 256 * (s / 256) + s % 256 = s := Nat.div_add_mod s 256
  rw [ht', Nat.shiftRight_eq_div_pow]
  norm_num
  omega

theorem le32_eq_sum {b0 b1 b2 b3 : Nat} (h0 : b0 < 256) (h1 : b1 < 256)
    (h2 : b2 < 256) : le32 b0 b1 b2 b3 = b0 + 256 * (b1 + 256 * (b2 + 256 * b3)) := by
  unfold le32
  rw [Nat.shiftLeft_eq, Nat.shiftLeft_eq, Nat.shiftLeft_eq]
  have e1 : b0 ||| b1 * 2 ^ 8 = 2 ^ 8 * b1 + b0 := by
    rw [Nat.mul_add_lt_is_or (by omega) b1, Nat.lor_comm]
    ring_nf
  have l1 : 2 ^ 8 * b1 + b0 < 2 ^ 16 := by omega
  have e2 : (b0 ||| b1 * 2 ^ 8) ||| b2 * 2 ^ 16 = 2 ^ 16 * b2 + (2 ^ 8 * b1 + b0) := by
    rw [e1, Nat.mul_add_lt_is_or l1 b2, Nat.lor_comm]
    ring_nf
  have l2 : 2 ^ 16 * b2 + (2 ^ 8 * b1 + b0) < 2 ^ 24 := by omega
  have e3 : ((b0 ||| b1 * 2 ^ 8) ||| b2 * 2 ^ 16) ||| b3 * 2 ^ 24 =
      2 ^ 24 * b3 + (2 ^ 16 * b2 + (2 ^ 8 * b1 + b0)) := by
    rw [e2, Nat.mul_add_lt_is_or l2 b3, Nat.lor_comm]
    ring_nf
  rw [e3]
  ring

/-! ### C10: the residue-style CRC acceptance test versus the direct test

`sempCustomReadCrc` (`my_parser/Parse_Custom.c`) lets the dispatcher keep
streaming the table update through the four trailing CRC bytes, starting from
the finalized CRC snapshot, and accepts iff the running register is zero
(`!parse->crc`).  `mpBtReadCrc` (`custom_parser/Parse_BT.c`) instead reads the
trailing four buffer bytes as a little-endian `u32` and compares with the
snapshot.  -/

/-- Acceptance condition of `sempCustomReadCrc`: continue the streaming CRC32
from the finalized snapshot `snap` through the four received CRC bytes and
accept iff the register is zero. -/
def sempResidueOk (snap c0 c1 c2 c3 : Nat) : Bool :=
  rawCrc snap [c0, c1, c2, c3] == 0

/-- Acceptance condition of `mpBtReadCrc`: the four received CRC bytes, read
little-endian, equal the finalized snapshot. -/
def mpBtDirectOk (snap c0 c1 c2 c3 : Nat) : Bool :=
  le32 c0 c1 c2 c3 == snap

theorem stepCrc_low' {s c : Nat} (h : s % 256 = c) :
    sempCustomComputeCrc s c = s >>> 8 := by
  rw [← h, stepCrc_low]

theorem residue_of_direct {snap c0 c1 c2 c3 : Nat}
    (h0 : c0 < 256) (h1 : c1 < 256) (h2 : c2 < 256) (h3 : c3 < 256)
    (heq : le32 c0 c1 c2 c3 = snap) : rawCrc snap [c0, c1, c2, c3] = 0 := by
  rw [le32_eq_sum h0 h1 h2] at heq
  have p8 : (2 : Nat) ^ 8 = 256 := by norm_num
  have e0 : sempCustomComputeCrc snap c0 = c1 + 256 * (c2 + 256 * c3) := by
    rw [stepCrc_low' (by omega), Nat.shiftRight_eq_div_pow, p8]
    omega
  have e1 : sempCustomComputeCrc (c1 + 256 * (c2 + 256 * c3)) c1 = c2 + 256 * c3 := by
    rw [stepCrc_low' (by omega), Nat.shiftRight_eq_div_pow, p8]
    omega
  have e2 : sempCustomComputeCrc (c2 + 256 * c3) c2 = c3 := by
    rw [stepCrc_low' (by omega), Nat.shiftRight_eq_div_pow, p8]
    omega
  have e3 : sempCustomComputeCrc c3 c3 = 0 := by
    rw [stepCrc_low' (by omega), Nat.shiftRight_eq_div_pow, p8]
    omega
  simp only [rawCrc, List.foldl]
  rw [e0, e1, e2, e3]

theorem direct_of_residue {snap c0 c1 c2 c3 : Nat} (hs : snap < 2 ^ 32)
    (h0 : c0 < 256) (h1 : c1 < 256) (h2 : c2 < 256) (h3 : c3 < 256)
    (heq : rawCrc snap [c0, c1, c2, c3] = 0) : le32 c0 c1 c2 c3 = snap := by
  simp only [rawCrc, List.foldl] at heq
  have b1 : sempCustomComputeCrc snap c0 < 2 ^ 32 := stepCrc_lt hs c0
  have b2 : sempCustomComputeCrc (sempCustomComputeCrc snap c0) c1 < 2 ^ 32 :=
    stepCrc_lt b1 c1
  have b3 : sempCustomComputeCrc
      (sempCustomComputeCrc (sempCustomComputeCrc snap c0) c1) c2 < 2 ^ 32 :=
    stepCrc_lt b2 c2
  have r3 := stepCrc_back b3 h3 heq (by norm_num)
  have r2 := stepCrc_back b2 h2 rfl (t := sempCustomComputeCrc
      (sempCustomComputeCrc (sempCustomComputeCrc snap c0) c1) c2) (by omega)
  rw [r3] at r2
  have r1 := stepCrc_back b1 h1 rfl (t := sempCustomComputeCrc
      (sempCustomComputeCrc snap c0) c1) (by omega)
  rw [r2] at r1
  have r0 := stepCrc_back hs h0 rfl (t := sempCustomComputeCrc snap c0) (by omega)
  rw [r1] at r0
  rw [le32_eq_sum h0 h1 h2]
  omega

/-- C10: For every BT/SEMP frame, the residue-style acceptance test of
`sempCustomReadCrc` (stream the reflected-CRC32 table update through the four
trailing CRC bytes starting from the finalized snapshot and accept iff the
register is zero) accepts exactly the same frames as the direct test of
`mpBtReadCrc` (the four trailing bytes read as a little-endian u32 equal the
finalized snapshot). -/
theorem c10_residue_direct_equiv {snap c0 c1 c2 c3 : Nat} (hs : snap < 2 ^ 32)
    (h0 : c0 < 256) (h1 : c1 < 256) (h2 : c2 < 256) (h3 : c3 < 256) :
    sempResidueOk snap c0 c1 c2 c3 = mpBtDirectOk snap c0 c1 c2 c3 := by
  unfold sempResidueOk mpBtDirectOk
  by_cases h : rawCrc snap [c0, c1, c2, c3] = 0
  · simp [h, direct_of_residue hs h0 h1 h2 h3 h]
  · have hne : le32 c0 c1 c2 c3 ≠ snap := fun he => h (residue_of_direct h0 h1 h2 h3 he)
    simp [h, hne]

theorem c10_residue_direct_equiv_witness :
    (0x6BDBD8C4 : Nat) < 2 ^ 32 ∧ (0xC4 : Nat) < 256 ∧ (0xD8 : Nat) < 256 ∧
      (0xDB : Nat) < 256 ∧ (0x6B : Nat) < 256 ∧
      sempResidueOk 0x6BDBD8C4 0xC4 0xD8 0xDB 0x6B =
        mpBtDirectOk 0x6BDBD8C4 0xC4 0xD8 0xDB 0x6B :=
  ⟨by norm_num, by norm_num, by norm_num, by norm_num, by norm_num,
    c10_residue_direct_equiv (by norm_num) (by norm_num) (by norm_num)
      (by norm_num) (by norm_num)⟩

/-! ### The SEMP framework: dispatcher of `my_parser/Message_Parser.c` with the
BT/SEMP ("custom") machine of `my_parser/Parse_Custom.c`

The buffer is modelled as the list of committed bytes (`msg_length` is its
length): every buffer write of the embedded code is `buffer[msg_length++] = b`.
The two output sinks (`eomCallback`, `badCrc`) and the too-long error print are
modelled as a trace of events; the optional bad-CRC callback is a configured
constant boolean (`SEMP_BAD_CRC_CALLBACK` returns `false` when its alternate
check succeeded, per the documentation in `Message_Parser.h`). -/

/-- The parser state function, `parse->state`, as an enumerated tag. -/
inductive CustomSt where
  | firstByte
  | sync2
  | sync3
  | readHeader
  | readData
  | readCrc
deriving DecidableEq, Repr

/-- Session configuration: buffer capacity and the optional bad-CRC callback
(modelled by its constant return value). -/
structure SempCfg where
  bufferLength : Nat
  badCrc : Option Bool
deriving DecidableEq, Repr

/-- The mutable fields of `SEMP_PARSE_STATE` that the dispatcher and the
custom machine touch, with the custom scratch union variant
(`SEMP_CUSTOM_VALUES`: `bytesRemaining`, `crc`). -/
structure SempPs where
  st : CustomSt
  buf : List Nat
  crc : Nat
  computeCrc : Bool
  parserType : Nat
  bytesRemaining : Nat
  scratchCrc : Nat
deriving DecidableEq, Repr

/-- Sink invocations observable by the caller. -/
inductive SempEv where
  | msg (buf : List Nat) (ty : Nat)
  | badCrcCall
  | errTooLong
deriving DecidableEq, Repr

/-- 16-bit decrement with unsigned wrap-around (`--x` on a `uint16_t`). -/
def dec16 (x : Nat) : Nat := if x = 0 then 0xFFFF else x - 1

abbrev SempRoutine : Type := SempPs → Nat → Bool × SempPs

/-- `sempCustomPreamble` (`Parse_Custom.c`): accept `0xAA`, seed the CRC with
`0xFFFFFFFF`, install the streaming CRC routine, feed the preamble byte
through it and go to `sync2`. -/
def sempCustomPreamble : SempRoutine := fun s d =>
  if d ≠ 0xAA then (false, s)
  else
    let s1 := { s with crc := 0xFFFFFFFF, computeCrc := true }
    (true, { s1 with crc := sempCustomComputeCrc s1.crc d, st := .sync2 })

/-- The registry walk inside `sempFirstByte`: try each parse routine in order,
threading the session; the first acceptor records its index in
`parse->parser_type`. -/
def sempWalkTable (tbl : List SempRoutine) (idx : Nat) (s : SempPs) (d : Nat) :
    Bool × SempPs :=
  match tbl with
  | [] => (false, s)
  | r :: rest =>
    match r s d with
    | (true, s') => (true, { s' with parserType := idx })
    | (false, s') => sempWalkTable rest (idx + 1) s' d

/-- The reset performed at the top of `sempFirstByte`: clear `crc` and
`computeCrc`, set `parser_type` to the registry size (no active parser), and
commit the byte as the single byte of a fresh buffer. -/
def sempScanReset (tbl : List SempRoutine) (s : SempPs) (d : Nat) : SempPs :=
  { s with crc := 0, computeCrc := false, parserType := tbl.length, buf := [d] }

/-- `sempFirstByte` (`Message_Parser.c`): reset `crc`, `computeCrc` and
`msg_length`, set `parser_type` to the registry size (no active parser),
commit the byte, then offer it to every registered preamble in order. -/
def sempFirstByte (tbl : List SempRoutine) (s : SempPs) (d : Nat) :
    Bool × SempPs :=
  match sempWalkTable tbl 0 (sempScanReset tbl s d) d with
  | (true, s') => (true, s')
  | (false, s') => (false, { s' with st := .firstByte })

/-- The registry configured for this repository: the single `custom` (BT/SEMP)
parse routine of `Parse_Custom.c`. -/
def sempTable : List SempRoutine := [sempCustomPreamble]

/-- `sempCustomReadCrc`: count down the four CRC bytes; on the last one accept
iff the running register is zero (`!parse->crc`); otherwise consult the
bad-CRC callback, which rescues the frame by returning `false`. -/
def sempCustomReadCrcStep (cfg : SempCfg) (s : SempPs) : SempPs × List SempEv :=
  let br := dec16 s.bytesRemaining
  if br ≠ 0 then ({ s with bytesRemaining := br }, [])
  else
    let evs :=
      if s.crc = 0 then [SempEv.msg s.buf s.parserType]
      else
        match cfg.badCrc with
        | none => []
        | some r =>
          if r then [SempEv.badCrcCall]
          else [SempEv.badCrcCall, SempEv.msg s.buf s.parserType]
    ({ s with bytesRemaining := br, st := .firstByte }, evs)

/-- `sempCustomReadData`: count down the payload; when it is exhausted,
finalize the CRC (`crc ^= 0xFFFFFFFF`), snapshot it into the scratch area and
go read the four CRC bytes. -/
def sempCustomReadDataStep (s : SempPs) : SempPs × List SempEv :=
  let br := dec16 s.bytesRemaining
  if br = 0 then
    let crc2 := s.crc ^^^ 0xFFFFFFFF
    ({ s with bytesRemaining := 4, crc := crc2, scratchCrc := crc2,
              st := .readCrc }, [])
  else ({ s with bytesRemaining := br }, [])

/-- `sempCustomReadHeader`: once 20 bytes (`sizeof(SEMP_CUSTOM_HEADER)`) are
committed, read the little-endian `messageLength` at offsets 12..13 and go
read the payload. -/
def sempCustomReadHeaderStep (s : SempPs) : SempPs × List SempEv :=
  if 20 ≤ s.buf.length then
    ({ s with bytesRemaining := s.buf.getD 12 0 + 256 * s.buf.getD 13 0,
              st := .readData }, [])
  else (s, [])

/-- `sempCustomSync3`: require `0x18`, else re-offer the byte via
`sempFirstByte`. -/
def sempCustomSync3Step (s : SempPs) (d : Nat) : SempPs × List SempEv :=
  if d ≠ 0x18 then ((sempFirstByte sempTable s d).2, [])
  else ({ s with st := .readHeader }, [])

/-- `sempCustomSync2`: require `0x44`, else re-offer the byte via
`sempFirstByte`. -/
def sempCustomSync2Step (s : SempPs) (d : Nat) : SempPs × List SempEv :=
  if d ≠ 0x44 then ((sempFirstByte sempTable s d).2, [])
  else ({ s with st := .sync3 }, [])

/-- Dispatch on the current state routine (the function pointer
`parse->state`). -/
def sempStateStep (cfg : SempCfg) (s : SempPs) (d : Nat) : SempPs × List SempEv :=
  match s.st with
  | .firstByte => ((sempFirstByte sempTable s d).2, [])
  | .sync2 => sempCustomSync2Step s d
  | .sync3 => sempCustomSync3Step s d
  | .readHeader => sempCustomReadHeaderStep s
  | .readData => sempCustomReadDataStep s
  | .readCrc => sempCustomReadCrcStep cfg s

/-- `sempParseNextByte` (`Message_Parser.c`): check capacity, commit the byte,
update the streaming CRC when installed, then run the state routine (its
boolean result is ignored). -/
def sempParseNextByte (cfg : SempCfg) (s : SempPs) (d : Nat) :
    SempPs × List SempEv :=
  if cfg.bufferLength ≤ s.buf.length then
    ((sempFirstByte sempTable s d).2, [SempEv.errTooLong])
  else
    let s1 := { s with buf := s.buf ++ [d] }
    let s2 := if s1.computeCrc then
        { s1 with crc := sempCustomComputeCrc s1.crc d } else s1
    sempStateStep cfg s2 d

/-- Freshly configured session (`sempBeginParser` zeroes the structure and
sets `state = sempFirstByte`). -/
def sempInitState : SempPs :=
  { st := .firstByte, buf := [], crc := 0, computeCrc := false,
    parserType := 0, bytesRemaining := 0, scratchCrc := 0 }

/-- Feed a byte sequence one byte at a time, collecting sink events. -/
def sempRun (cfg : SempCfg) (s : SempPs) : List Nat → SempPs × List SempEv
  | [] => (s, [])
  | d :: rest =>
    let r1 := sempParseNextByte cfg s d
    let r2 := sempRun cfg r1.1 rest
    (r2.1, r1.2 ++ r2.2)

/-- The 26-byte BT/SEMP LED-control fixture frame from the spec. -/
def btFrame : List Nat :=
  [0xAA, 0x44, 0x18, 0x14, 0x01, 0x00, 0x00, 0x00, 0x00, 0x00, 0x00, 0x00,
   0x02, 0x00, 0x00, 0x00, 0x00, 0x00, 0x00, 0x00, 0x01, 0x00,
   0xC4, 0xD8, 0xDB, 0x6B]

/-- Default configuration: 256-byte buffer, no bad-CRC callback. -/
def cfg256 : SempCfg := { bufferLength := 256, badCrc := none }

/-- The declared BT/SEMP integrity check on a delivered frame: its trailing
four bytes, read little-endian as in `mpBtReadCrc`, equal the finalized
reflected CRC32 of the preceding bytes. -/
def btFrameOk (b : List Nat) : Bool :=
  le32 (b.getD (b.length - 4) 0) (b.getD (b.length - 3) 0)
      (b.getD (b.length - 2) 0) (b.getD (b.length - 1) 0)
    == crc32fin (b.take (b.length - 4))

theorem sempWalkTable_skip {pre : List SempRoutine} {d : Nat}
    (h : ∀ q ∈ pre, ∀ t, q t d = (false, t)) (rest : List SempRoutine)
    (idx : Nat) (s : SempPs) :
    sempWalkTable (pre ++ rest) idx s d = sempWalkTable rest (idx + pre.length) s d := by
  induction pre generalizing idx with
  | nil => simp
  | cons q pre ih =>
    have hq := h q (by simp)
    rw [List.cons_append]
    show sempWalkTable (q :: (pre ++ rest)) idx s d = _
    simp only [sempWalkTable, hq]
    rw [ih (fun q hqm t => h q (by simp [hqm]) t) (idx + 1)]
    have he : idx + 1 + pre.length = idx + (q :: pre).length := by
      simp
      omega
    rw [he]

theorem sempFirstByte_accept {pre post : List SempRoutine} {r : SempRoutine}
    {s s' : SempPs} {d : Nat}
    (h : ∀ q ∈ pre, ∀ t, q t d = (false, t))
    (hr : r (sempScanReset (pre ++ r :: post) s d) d = (true, s')) :
    sempFirstByte (pre ++ r :: post) s d =
      (true, { s' with parserType := pre.length }) := by
  unfold sempFirstByte
  rw [sempWalkTable_skip h (r :: post) 0 (sempScanReset (pre ++ r :: post) s d)]
  simp only [sempWalkTable, hr, Nat.zero_add]

theorem sempFirstByte_reject {tbl : List SempRoutine} {s : SempPs} {d : Nat}
    (h : ∀ q ∈ tbl, ∀ t, q t d = (false, t)) :
    sempFirstByte tbl s d =
      (false, { sempScanReset tbl s d with st := .firstByte }) := by
  unfold sempFirstByte
  have hskip := sempWalkTable_skip h [] 0 (sempScanReset tbl s d)
  rw [List.append_nil] at hskip
  rw [hskip]
  simp [sempWalkTable]

theorem sempFirstByte_aa (s : SempPs) :
    sempFirstByte sempTable s 0xAA =
      (true, { s with st := CustomSt.sync2, buf := [0xAA],
                      crc := sempCustomComputeCrc 0xFFFFFFFF 0xAA,
                      computeCrc := true, parserType := 0 }) := by
  cases s
  rfl

/-- `sempFirstByte` over the concrete registry only reads the fields it does
not reset. -/
theorem sempFirstByte_ext (s t : SempPs) (d : Nat)
    (hbr : s.bytesRemaining = t.bytesRemaining)
    (hsc : s.scratchCrc = t.scratchCrc) :
    sempFirstByte sempTable s d = sempFirstByte sempTable t d := by
  cases s
  cases t
  simp only at hbr hsc
  subst hbr
  subst hsc
  by_cases hda : d = 0xAA <;>
    simp [sempFirstByte, sempWalkTable, sempCustomPreamble, sempScanReset,
      sempTable, hda]

/-- `sempFirstByte` over the concrete registry ignores the fields that the
scan reset overwrites. -/
theorem sempFirstByte_update (s : SempPs) (ST : CustomSt) (X : List Nat)
    (Y : Nat) (C : Bool) (d : Nat) :
    sempFirstByte sempTable { s with st := ST, buf := X, crc := Y, computeCrc := C } d =
      sempFirstByte sempTable s d := by
  exact sempFirstByte_ext _ s d rfl rfl

theorem sempRetreat_eq {cfg : SempCfg} {s : SempPs} {d : Nat}
    (hlen : s.buf.length < cfg.bufferLength)
    (hcase : (s.st = .sync2 ∧ d ≠ 0x44) ∨ (s.st = .sync3 ∧ d ≠ 0x18)) :
    sempParseNextByte cfg s d = ((sempFirstByte sempTable s d).2, []) := by
  unfold sempParseNextByte
  rw [if_neg (by omega)]
  rcases hcase with ⟨hst, hd⟩ | ⟨hst, hd⟩ <;>
    by_cases hc : s.computeCrc <;>
      simp only [hc, Bool.false_eq_true, if_true, if_false] <;>
        simp only [sempStateStep, hst, sempCustomSync2Step, sempCustomSync3Step] <;>
          rw [if_pos hd] <;>
            rw [sempFirstByte_update]

theorem sempScanStep_of_not_aa {cfg : SempCfg} {s : SempPs} {d : Nat}
    (hst : s.st = CustomSt.firstByte) (hd : d ≠ 0xAA) :
    (sempParseNextByte cfg s d).1.buf = [d] ∧
      (sempParseNextByte cfg s d).1.st = CustomSt.firstByte := by
  have hrej : ∀ q ∈ sempTable, ∀ t, q t d = (false, t) := by
    intro q hq t
    simp only [sempTable, List.mem_singleton] at hq
    subst hq
    simp [sempCustomPreamble, hd]
  unfold sempParseNextByte
  by_cases hb : cfg.bufferLength ≤ s.buf.length
  · rw [if_pos hb, sempFirstByte_reject hrej]
    simp [sempScanReset]
  · rw [if_neg hb]
    by_cases hc : s.computeCrc <;>
      simp only [hc, Bool.false_eq_true, if_true, if_false] <;>
        simp only [sempStateStep, hst] <;>
          rw [sempFirstByte_reject hrej] <;>
            simp [sempScanReset]

set_option maxRecDepth 100000 in
/-- C3: Feeding the 26-byte BT/SEMP frame
`AA 44 18 14 01 00 00 00 00 00 00 00 02 00 00 00 00 00 00 00 01 00 C4 D8 DB 6B`
byte by byte into a freshly initialized parser with the BT/SEMP machine
registered produces exactly one `on_message` invocation, and the frame passes
the BT/SEMP integrity check (streamed reflected CRC32 with init `0xFFFFFFFF`
and final xor `0xFFFFFFFF` matching the trailing little-endian CRC). -/
theorem c3_bt_fixture :
    (sempRun cfg256 sempInitState btFrame).2 = [SempEv.msg btFrame 0] ∧
      btFrameOk btFrame = true := by decide

/-- C4: When no protocol is locked, each incoming byte is offered to every
registered preamble routine in registry order: the first routine that accepts
becomes the active protocol (its index is recorded and its returned state is
installed); if no routine accepts, the parser stays in the scanning state and
the length is reset, so the next byte starts a fresh single-byte window. -/
theorem c4_scan_registry :
    (∀ (pre post : List SempRoutine) (r : SempRoutine) (s s' : SempPs) (d : Nat),
        (∀ q ∈ pre, ∀ t, q t d = (false, t)) →
        r (sempScanReset (pre ++ r :: post) s d) d = (true, s') →
        sempFirstByte (pre ++ r :: post) s d =
          (true, { s' with parserType := pre.length })) ∧
    (∀ (tbl : List SempRoutine) (s : SempPs) (d : Nat),
        (∀ q ∈ tbl, ∀ t, q t d = (false, t)) →
        sempFirstByte tbl s d =
          (false, { sempScanReset tbl s d with st := CustomSt.firstByte })) ∧
    (∀ s : SempPs,
        sempFirstByte sempTable s 0xAA =
          (true, { s with st := CustomSt.sync2, buf := [0xAA],
                          crc := sempCustomComputeCrc 0xFFFFFFFF 0xAA,
                          computeCrc := true, parserType := 0 })) ∧
    (∀ (cfg : SempCfg) (s : SempPs) (d : Nat),
        s.st = CustomSt.firstByte → d ≠ 0xAA →
        (sempParseNextByte cfg s d).1.buf = [d] ∧
          (sempParseNextByte cfg s d).1.st = CustomSt.firstByte) :=
  ⟨fun _ _ _ _ _ _ h hr => sempFirstByte_accept h hr,
   fun _ _ _ h => sempFirstByte_reject h,
   sempFirstByte_aa,
   fun _ _ _ hst hd => sempScanStep_of_not_aa hst hd⟩

theorem c4_scan_registry_witness :
    (∀ q ∈ sempTable, ∀ t, q t 0 = (false, t)) ∧
    sempFirstByte sempTable sempInitState 0 =
      (false, { sempScanReset sempTable sempInitState 0 with
                st := CustomSt.firstByte }) ∧
    (sempParseNextByte cfg256 sempInitState 0x42).1.buf = [0x42] ∧
      (sempParseNextByte cfg256 sempInitState 0x42).1.st = CustomSt.firstByte :=
  have h : ∀ q ∈ sempTable, ∀ t, q t 0 = (false, t) := by
    intro q hq t
    simp only [sempTable, List.mem_singleton] at hq
    subst hq
    rfl
  ⟨h, c4_scan_registry.2.1 sempTable sempInitState 0 h,
   c4_scan_registry.2.2.2 cfg256 sempInitState 0x42 rfl (by decide)⟩

/-- C5: For every byte that causes a framing failure inside the active BT/SEMP
machine (a wrong second or third sync byte), the parser behaves exactly as if
the byte were offered afresh to the full registry (`sempFirstByte`), so the
retreating byte can itself begin a new candidate frame (in particular a
retreating `0xAA` immediately re-enters `sync2` with a fresh one-byte
buffer). -/
theorem c5_retreat_reoffer :
    (∀ (cfg : SempCfg) (s : SempPs) (d : Nat),
        s.buf.length < cfg.bufferLength →
        (s.st = CustomSt.sync2 ∧ d ≠ 0x44) ∨ (s.st = CustomSt.sync3 ∧ d ≠ 0x18) →
        sempParseNextByte cfg s d = ((sempFirstByte sempTable s d).2, [])) ∧
    (∀ (cfg : SempCfg) (s : SempPs),
        s.buf.length < cfg.bufferLength → s.st = CustomSt.sync2 →
        (sempParseNextByte cfg s 0xAA).1.st = CustomSt.sync2 ∧
          (sempParseNextByte cfg s 0xAA).1.buf = [0xAA]) := by
  constructor
  · intro cfg s d hlen hcase
    exact sempRetreat_eq hlen hcase
  · intro cfg s hlen hst
    rw [sempRetreat_eq hlen (Or.inl ⟨hst, by decide⟩), sempFirstByte_aa]
    exact ⟨rfl, rfl⟩

theorem c5_retreat_reoffer_witness :
    sempParseNextByte cfg256
        { st := CustomSt.sync2, buf := [0xAA], crc := 0, computeCrc := true,
          parserType := 0, bytesRemaining := 0, scratchCrc := 0 } 0x99 =
      ((sempFirstByte sempTable
          { st := CustomSt.sync2, buf := [0xAA], crc := 0, computeCrc := true,
            parserType := 0, bytesRemaining := 0, scratchCrc := 0 } 0x99).2, []) ∧
    (sempParseNextByte cfg256
        { st := CustomSt.sync2, buf := [0xAA], crc := 0, computeCrc := true,
          parserType := 0, bytesRemaining := 0, scratchCrc := 0 } 0xAA).1.st =
      CustomSt.sync2 :=
  ⟨c5_retreat_reoffer.1 cfg256 _ 0x99 (by decide) (Or.inl ⟨rfl, by decide⟩),
   (c5_retreat_reoffer.2 cfg256 _ (by decide) rfl).1⟩

/-- The fixture frame with its final CRC byte corrupted (`0x6B → 0x6A`). -/
def btFrameBad : List Nat := btFrame.dropLast ++ [0x6A]

/-- Configuration whose bad-CRC callback returns `true`. -/
def cfgRescueTrue : SempCfg := { bufferLength := 256, badCrc := some true }

set_option maxRecDepth 100000 in
/-- C2 counterexample: a fully received frame whose CRC fails, with a bad-CRC
callback configured that returns `true`, produces only the callback invocation
and NO `on_message` — contradicting the claim that a `true` return upgrades
the frame to acceptance.  In this code base the polarity is inverted: per the
`SEMP_BAD_CRC_CALLBACK` documentation in `Message_Parser.h`, `true` means the
CRC really failed and `false` means the alternate check succeeded. -/
theorem c2_counterexample :
    (sempRun cfgRescueTrue sempInitState btFrameBad).2 = [SempEv.badCrcCall] := by
  decide

/-- C2 (amended): whenever a fully received frame fails its integrity check
and a bad-CRC callback is configured, the callback is invoked; if it returns
`false` (its alternate check succeeded) the frame is treated as valid and
`on_message` fires right after the callback; if it returns `true` the frame is
discarded without `on_message`.  In either case the parser returns to
scanning. -/
theorem c2_bad_crc_callback :
    ∀ (cfg : SempCfg) (r : Bool) (s : SempPs) (d : Nat),
      cfg.badCrc = some r → s.st = CustomSt.readCrc → s.bytesRemaining = 1 →
      s.computeCrc = true → s.buf.length < cfg.bufferLength →
      sempCustomComputeCrc s.crc d ≠ 0 →
      (sempParseNextByte cfg s d).2 =
        SempEv.badCrcCall ::
          (if r then [] else [SempEv.msg (s.buf ++ [d]) s.parserType]) ∧
      (sempParseNextByte cfg s d).1.st = CustomSt.firstByte := by
  intro cfg r s d hbad hst hbr hcc hlen hcrc
  unfold sempParseNextByte
  rw [if_neg (by omega)]
  simp only [hcc, if_true]
  simp only [sempStateStep, hst, sempCustomReadCrcStep, hbr]
  simp only [dec16]
  norm_num
  simp only [hcrc, if_false, hbad]
  cases r <;> simp

theorem c2_bad_crc_callback_witness :
    (sempParseNextByte { bufferLength := 256, badCrc := some false }
        { st := CustomSt.readCrc, buf := [1, 2, 3], crc := 5, computeCrc := true,
          parserType := 0, bytesRemaining := 1, scratchCrc := 0 } 0).2 =
      SempEv.badCrcCall ::
        (if false then [] else [SempEv.msg ([1, 2, 3] ++ [0]) 0]) ∧
    (sempParseNextByte { bufferLength := 256, badCrc := some false }
        { st := CustomSt.readCrc, buf := [1, 2, 3], crc := 5, computeCrc := true,
          parserType := 0, bytesRemaining := 1, scratchCrc := 0 } 0).1.st =
      CustomSt.firstByte :=
  c2_bad_crc_callback { bufferLength := 256, badCrc := some false } false
    { st := CustomSt.readCrc, buf := [1, 2, 3], crc := 5, computeCrc := true,
      parserType := 0, bytesRemaining := 1, scratchCrc := 0 } 0
    rfl rfl rfl rfl (by decide) (by decide)

theorem rawCrc_append (i : Nat) (l : List Nat) (d : Nat) :
    rawCrc i (l ++ [d]) = sempCustomComputeCrc (rawCrc i l) d := by
  simp [rawCrc, List.foldl_append]

theorem dec16_of_pos {x : Nat} (h : 1 ≤ x) : dec16 x = x - 1 := by
  unfold dec16
  rw [if_neg (by omega)]

theorem btFrameOk_append (body : List Nat) (c0 c1 c2 c3 : Nat) :
    btFrameOk (body ++ [c0, c1, c2, c3]) = (le32 c0 c1 c2 c3 == crc32fin body) := by
  unfold btFrameOk
  have hlen : (body ++ [c0, c1, c2, c3]).length = body.length + 4 := by simp
  rw [hlen]
  have h0 : body.length + 4 - 4 = body.length := by omega
  have h1 : body.length + 4 - 3 = body.length + 1 := by omega
  have h2 : body.length + 4 - 2 = body.length + 2 := by omega
  have h3 : body.length + 4 - 1 = body.length + 3 := by omega
  rw [h0, h1, h2, h3]
  rw [List.getD_append_right _ _ _ _ (by omega), List.getD_append_right _ _ _ _ (by omega),
    List.getD_append_right _ _ _ _ (by omega), List.getD_append_right _ _ _ _ (by omega)]
  simp only [Nat.add_sub_cancel_left, Nat.sub_self]
  rw [List.take_left' rfl]
  rfl

/-- Reachability invariant of the SEMP framework tying the running CRC to the
committed buffer. -/
def SempInv (s : SempPs) : Prop :=
  (s.st = CustomSt.sync2 ∨ s.st = CustomSt.sync3 ∨ s.st = CustomSt.readHeader ∨
      s.st = CustomSt.readData →
    s.computeCrc = true ∧ s.crc = rawCrc 0xFFFFFFFF s.buf) ∧
  (s.st = CustomSt.readCrc →
    s.computeCrc = true ∧ 1 ≤ s.bytesRemaining ∧ s.bytesRemaining ≤ 4 ∧
    ∃ body tail, s.buf = body ++ tail ∧ tail.length + s.bytesRemaining = 4 ∧
      (∀ x ∈ tail, x < 256) ∧ s.scratchCrc = crc32fin body ∧
      s.crc = rawCrc s.scratchCrc tail)



theorem sempFirstByte_inv (s : SempPs) (d : Nat) :
    SempInv (sempFirstByte sempTable s d).2 := by
  by_cases hda : d = 0xAA
  · subst hda
    rw [sempFirstByte_aa]
    constructor
    · intro _
      refine ⟨rfl, ?_⟩
      try dsimp only
      rw [rawCrc, List.foldl_cons, List.foldl_nil]
    · intro h
      simp at h
  · have hrej : ∀ q ∈ sempTable, ∀ t, q t d = (false, t) := by
      intro q hq t
      simp only [sempTable, List.mem_singleton] at hq
      subst hq
      simp [sempCustomPreamble, hda]
    rw [sempFirstByte_reject hrej]
    constructor
    · intro hor
      simp [sempScanReset] at hor
    · intro hor
      simp [sempScanReset] at hor

theorem semp_step_inv (cfg : SempCfg) (s : SempPs) (d : Nat) (hI : SempInv s)
    (hd : d < 256) :
    SempInv (sempParseNextByte cfg s d).1 ∧
      ∀ b ty, SempEv.msg b ty ∈ (sempParseNextByte cfg s d).2 →
        btFrameOk b = true ∨ cfg.badCrc = some false := by
  unfold sempParseNextByte
  by_cases hb : cfg.bufferLength ≤ s.buf.length
  · rw [if_pos hb]
    refine ⟨sempFirstByte_inv s d, ?_⟩
    intro b ty hmem
    simp at hmem
  · rw [if_neg hb]
    cases hst : s.st with
    | firstByte =>
      by_cases hc : s.computeCrc <;>
        simp only [hc, Bool.false_eq_true, if_true, if_false] <;>
          simp only [sempStateStep, hst] <;>
            exact ⟨sempFirstByte_inv _ d, by intro b ty hmem; simp at hmem⟩
    | sync2 =>
      obtain ⟨hcc, hcrc⟩ := hI.1 (Or.inl hst)
      simp only [hcc, if_true]
      simp only [sempStateStep, hst, sempCustomSync2Step]
      by_cases hd44 : d = 0x44
      · rw [if_neg (not_not_intro hd44)]
        refine ⟨⟨?_, ?_⟩, ?_⟩
        · intro _
          refine ⟨rfl, ?_⟩
          try dsimp only
          rw [rawCrc_append, ← hcrc]
        · intro h
          simp at h
        · intro b ty hmem
          simp at hmem
      · rw [if_pos hd44]
        exact ⟨sempFirstByte_inv _ d, by intro b ty hmem; simp at hmem⟩
    | sync3 =>
      obtain ⟨hcc, hcrc⟩ := hI.1 (Or.inr (Or.inl hst))
      simp only [hcc, if_true]
      simp only [sempStateStep, hst, sempCustomSync3Step]
      by_cases hd18 : d = 0x18
      · rw [if_neg (not_not_intro hd18)]
        refine ⟨⟨?_, ?_⟩, ?_⟩
        · intro _
          refine ⟨rfl, ?_⟩
          try dsimp only
          rw [rawCrc_append, ← hcrc]
        · intro h
          simp at h
        · intro b ty hmem
          simp at hmem
      · rw [if_pos hd18]
        exact ⟨sempFirstByte_inv _ d, by intro b ty hmem; simp at hmem⟩
    | readHeader =>
      obtain ⟨hcc, hcrc⟩ := hI.1 (Or.inr (Or.inr (Or.inl hst)))
      simp only [hcc, if_true]
      simp only [sempStateStep, hst, sempCustomReadHeaderStep]
      try dsimp only
      by_cases h20 : 20 ≤ (s.buf ++ [d]).length
      · rw [if_pos h20]
        refine ⟨⟨?_, ?_⟩, ?_⟩
        · intro _
          refine ⟨rfl, ?_⟩
          try dsimp only
          rw [rawCrc_append, ← hcrc]
        · intro h
          simp at h
        · intro b ty hmem
          simp at hmem
      · rw [if_neg h20]
        refine ⟨⟨?_, ?_⟩, ?_⟩
        · intro _
          refine ⟨rfl, ?_⟩
          try dsimp only
          rw [rawCrc_append, ← hcrc]
        · intro h
          simp at h
        · intro b ty hmem
          simp at hmem
    | readData =>
      obtain ⟨hcc, hcrc⟩ := hI.1 (Or.inr (Or.inr (Or.inr hst)))
      simp only [hcc, if_true]
      simp only [sempStateStep, hst, sempCustomReadDataStep]
      try dsimp only
      by_cases hbr : dec16 s.bytesRemaining = 0
      · rw [if_pos hbr]
        refine ⟨⟨?_, ?_⟩, ?_⟩
        · intro hor
          simp at hor
        · intro _
          refine ⟨rfl, by dsimp only; omega, by dsimp only; omega, s.buf ++ [d], [], by simp, by simp, ?_, ?_, ?_⟩
          · intro x hx
            simp at hx
          · try dsimp only
            rw [crc32fin, rawCrc_append, ← hcrc]
          · try dsimp only
            rw [rawCrc, List.foldl_nil]
        · intro b ty hmem
          simp at hmem
      · rw [if_neg hbr]
        refine ⟨⟨?_, ?_⟩, ?_⟩
        · intro _
          refine ⟨rfl, ?_⟩
          try dsimp only
          rw [rawCrc_append, ← hcrc]
        · intro h
          simp at h
        · intro b ty hmem
          simp at hmem
    | readCrc =>
      obtain ⟨hcc, hge, hle, body, tail, hbuf, hlen4, htl, hscr, hcrc⟩ := hI.2 hst
      simp only [hcc, if_true]
      simp only [sempStateStep, hst, sempCustomReadCrcStep]
      try dsimp only
      by_cases hbr1 : s.bytesRemaining = 1
      · have hdz : dec16 s.bytesRemaining = 0 := by
          rw [hbr1]
          rfl
        rw [if_neg (not_not_intro hdz)]
        have htlen : tail.length = 3 := by omega
        rcases tail with _ | ⟨c0, tail⟩
        · simp at htlen
        rcases tail with _ | ⟨c1, tail⟩
        · simp at htlen
        rcases tail with _ | ⟨c2, tail⟩
        · simp at htlen
        rcases tail with _ | ⟨c3, tail⟩
        swap
        · simp at htlen
        have hb0 : c0 < 256 := htl c0 (by simp)
        have hb1 : c1 < 256 := htl c1 (by simp)
        have hb2 : c2 < 256 := htl c2 (by simp)
        have hbuf' : s.buf ++ [d] = body ++ [c0, c1, c2, d] := by
          rw [hbuf]
          simp
        have hcrc' : sempCustomComputeCrc s.crc d = rawCrc s.scratchCrc [c0, c1, c2, d] := by
          rw [hcrc]
          rw [show ([c0, c1, c2, d] : List Nat) = [c0, c1, c2] ++ [d] from rfl]
          rw [rawCrc_append]
        constructor
        · constructor
          · intro hor
            simp at hor
          · intro h
            simp at h
        · intro b ty hmem
          by_cases hz : sempCustomComputeCrc s.crc d = 0
          · rw [if_pos hz] at hmem
            simp at hmem
            left
            obtain ⟨hbeq, -⟩ := hmem
            rw [hbeq, hbuf', btFrameOk_append]
            have hle32 : le32 c0 c1 c2 d = crc32fin body := by
              rw [← hscr]
              apply direct_of_residue _ hb0 hb1 hb2 hd
              · rw [← hcrc', hz]
              · rw [hscr]
                exact crc32fin_lt body
            rw [hle32]
            exact beq_self_eq_true (crc32fin body)
          · rw [if_neg hz] at hmem
            cases hbc : cfg.badCrc with
            | none =>
              rw [hbc] at hmem
              simp at hmem
            | some r =>
              rw [hbc] at hmem
              cases r
              · right
                rfl
              · simp at hmem
      · have h2 : 2 ≤ s.bytesRemaining := by omega
        have hdz : dec16 s.bytesRemaining = s.bytesRemaining - 1 :=
          dec16_of_pos (by omega)
        have hne : dec16 s.bytesRemaining ≠ 0 := by omega
        rw [if_pos hne]
        refine ⟨⟨?_, ?_⟩, ?_⟩
        · intro hor
          simp at hor
        · intro _
          refine ⟨rfl, by dsimp only; rw [hdz]; omega, by dsimp only; rw [hdz]; omega, body, tail ++ [d], ?_, ?_, ?_, hscr, ?_⟩
          · try dsimp only
            rw [hbuf, List.append_assoc]
          · try dsimp only
            rw [hdz]
            simp
            omega
          · intro x hx
            simp at hx
            rcases hx with hx | hx
            · exact htl x hx
            · omega
          · try dsimp only
            rw [rawCrc_append, ← hcrc]
        · intro b ty hmem
          simp at hmem


theorem semp_run_inv (cfg : SempCfg) (input : List Nat)
    (hin : ∀ x ∈ input, x < 256) :
    ∀ s : SempPs, SempInv s →
      SempInv (sempRun cfg s input).1 ∧
      ∀ b ty, SempEv.msg b ty ∈ (sempRun cfg s input).2 →
        btFrameOk b = true ∨ cfg.badCrc = some false := by
  induction input with
  | nil =>
    intro s hI
    refine ⟨hI, ?_⟩
    intro b ty h
    simp [sempRun] at h
  | cons d rest ih =>
    intro s hI
    have hd : d < 256 := hin d (by simp)
    have hstep := semp_step_inv cfg s d hI hd
    have hrest := ih (fun x hx => hin x (by simp [hx])) _ hstep.1
    constructor
    · simp only [sempRun]
      exact hrest.1
    · intro b ty hmem
      simp only [sempRun] at hmem
      rw [List.mem_append] at hmem
      rcases hmem with h | h
      · exact hstep.2 b ty h
      · exact hrest.2 b ty h

/-! ### The MP framework: the protocol machines of `my_parser/Parse_NMEA.c`,
`my_parser/Parse_UBLOX.c` and `my_parser/Parse_RTCM.c`

The machines below are embedded from the source files.  Their dispatcher
(`msgp_processByte`, declared in `my_parser/Message_Parser.h`) is absent from
the source tree; `mpProcessByte` below is modelled from the spec: §4.1 (append
the byte and increment `length` before dispatch, walk the registry in order
while scanning, log and rescan on capacity overflow) and §4.8 (on a state
routine reporting failure, return to scanning and re-offer the current byte).
The registry order used here is `[NMEA, u-blox, RTCM]`; the three preamble
bytes (`$`, `0xB5`, `0xD3`) are distinct, so the order does not matter.
The bad-CRC callback of this draft is invoked on mismatches but its result is
ignored by the machines, so only its presence is configured. -/

/-- States of the MP machines (`parse->state`). -/
inductive MpSt where
  | scanning
  | nFirstComma
  | nFindAsterisk
  | nChecksum1
  | nChecksum2
  | nLineTerm
  | uSync2
  | uClass
  | uId
  | uLenLo
  | uLenHi
  | uPayload
  | uCkA
  | uCkB
  | rLenLow
  | rPayload
  | rCrc1
  | rCrc2
  | rCrc3
deriving DecidableEq, Repr

/-- MP session configuration. -/
structure MpCfg where
  bufferLength : Nat
  badCrcConfigured : Bool
deriving DecidableEq, Repr

/-- Mutable MP session state; the scratch union variants are flattened into
separate fields (only the variant matching the active machine is ever read,
per the data-model invariant). -/
structure MpPs where
  st : MpSt
  buf : List Nat
  crc : Nat
  computeCrc : Bool
  protocolIndex : Nat
  nmeaName : List Nat
  ubloxBytesRemaining : Nat
  checksumA : Nat
  checksumB : Nat
  rtcmMessageLength : Nat
  rtcmBytesRemaining : Nat
  rtcmCrc : Nat
deriving DecidableEq, Repr

/-- MP sink invocations. -/
inductive MpEv where
  | msg (buf : List Nat) (ty : Nat)
  | badCrcCall
  | errTooLong
deriving DecidableEq, Repr

/-- `msgp_util_asciiToNibble`: lowercase the character, decode a hex digit,
`-1` on failure. -/
def msgp_util_asciiToNibble (d : Nat) : Int :=
  let x := d ||| 0x20
  if 0x61 ≤ x ∧ x ≤ 0x66 then (x : Int) - 0x61 + 10
  else if 0x30 ≤ x ∧ x ≤ 0x39 then (x : Int) - 0x30
  else -1

/-- `mpUbloxComputeChecksum`: the two `uint8_t` Fletcher accumulators. -/
def mpUbloxComputeChecksum (s : MpPs) (d : Nat) : MpPs :=
  let a := (s.checksumA + d) % 256
  { s with checksumA := a, checksumB := (s.checksumB + a) % 256 }

/-- One bit of the bitwise CRC24Q update in `mpRtcmComputeCrc24`. -/
def mpRtcmCrc24Bit (c : Nat) : Nat :=
  if c &&& 0x800000 ≠ 0 then ((c <<< 1) ^^^ 0x1864CFB) &&& 0xFFFFFF
  else (c <<< 1) &&& 0xFFFFFF

/-- One byte of the CRC24Q update (`crc ^= data << 16`, then 8 bit steps). -/
def mpRtcmCrc24Byte (c d : Nat) : Nat :=
  mpRtcmCrc24Bit (mpRtcmCrc24Bit (mpRtcmCrc24Bit (mpRtcmCrc24Bit
    (mpRtcmCrc24Bit (mpRtcmCrc24Bit (mpRtcmCrc24Bit (mpRtcmCrc24Bit
      (c ^^^ (d <<< 16)))))))))

/-- `mpRtcmComputeCrc24`: CRC24Q over a byte list, init 0. -/
def mpRtcmComputeCrc24 (bs : List Nat) : Nat := bs.foldl mpRtcmCrc24Byte 0

/-- `mpNmeaValidateChecksum` (`Parse_NMEA.c`): decode the two checksum hex
characters, compare with the running XOR; on success append `\r\n` and fire
`on_message`, otherwise invoke the bad-CRC callback when configured (its
result is ignored).  A non-hex character decodes to `-1`, which in the C
`int` arithmetic can never equal `crc & 0xFF`. -/
def mpNmeaValidateChecksum (cfg : MpCfg) (s : MpPs) : MpPs × List MpEv :=
  let hi := msgp_util_asciiToNibble (s.buf.getD (s.buf.length - 2) 0)
  let lo := msgp_util_asciiToNibble (s.buf.getD (s.buf.length - 1) 0)
  let ok : Bool :=
    if hi < 0 ∨ lo < 0 then false
    else hi * 16 + lo == ((s.crc &&& 0xFF : Nat) : Int)
  if ok then
    ({ s with buf := s.buf ++ [13, 10] },
     [MpEv.msg (s.buf ++ [13, 10]) s.protocolIndex])
  else
    (s, if cfg.badCrcConfigured then [MpEv.badCrcCall] else [])

/-- `mpNmeaLineTermination`: drop the terminator byte from the committed
length, validate, and end the sentence (`state = NULL; return false`). -/
def mpNmeaLineTerminationStep (cfg : MpCfg) (s : MpPs) : Bool × MpPs × List MpEv :=
  let r := mpNmeaValidateChecksum cfg { s with buf := s.buf.dropLast }
  (false, r.1, r.2)

/-- `mpNmeaChecksumByte2`: the byte just committed must be a hex digit. -/
def mpNmeaChecksumByte2Step (s : MpPs) : Bool × MpPs × List MpEv :=
  if 0 ≤ msgp_util_asciiToNibble (s.buf.getD (s.buf.length - 1) 0) then
    (true, { s with st := MpSt.nLineTerm }, [])
  else (false, s, [])

/-- `mpNmeaChecksumByte1`. -/
def mpNmeaChecksumByte1Step (s : MpPs) : Bool × MpPs × List MpEv :=
  if 0 ≤ msgp_util_asciiToNibble (s.buf.getD (s.buf.length - 1) 0) then
    (true, { s with st := MpSt.nChecksum2 }, [])
  else (false, s, [])

/-- `mpNmeaFindAsterisk`: `*` starts the checksum, other bytes are XORed into
the running checksum; keep 6 bytes of headroom (`* X X \r \n NUL`). -/
def mpNmeaFindAsteriskStep (cfg : MpCfg) (s : MpPs) (d : Nat) :
    Bool × MpPs × List MpEv :=
  if d = 42 then (true, { s with st := MpSt.nChecksum1 }, [])
  else
    let s1 := { s with crc := s.crc ^^^ d }
    if cfg.bufferLength < s1.buf.length + 6 then (false, s1, [])
    else (true, s1, [])

/-- `mpNmeaFindFirstComma`: XOR every byte, collect the sentence name until
the first comma (bounded by 15 characters). -/
def mpNmeaFindFirstCommaStep (s : MpPs) (d : Nat) : Bool × MpPs × List MpEv :=
  let s1 := { s with crc := s.crc ^^^ d }
  if d = 44 then (true, { s1 with st := MpSt.nFindAsterisk }, [])
  else if s1.nmeaName.length < 15 then
    (true, { s1 with nmeaName := s1.nmeaName ++ [d] }, [])
  else (false, s1, [])

/-- `msgp_nmea_preamble`: accept `$`, reset the buffer to the single preamble
byte, clear the running checksum, go look for the first comma. -/
def msgp_nmea_preamble (s : MpPs) (d : Nat) : Bool × MpPs :=
  if d ≠ 36 then (false, s)
  else (true, { s with buf := [d], nmeaName := [], crc := 0,
                       computeCrc := false, st := MpSt.nFirstComma })

/-- `mpUbloxReadChecksumB`: accept iff the byte equals the second Fletcher
accumulator; fire `on_message` on match, else the bad-CRC callback. -/
def mpUbloxReadChecksumBStep (cfg : MpCfg) (s : MpPs) (d : Nat) :
    Bool × MpPs × List MpEv :=
  if d = s.checksumB then (false, s, [MpEv.msg s.buf s.protocolIndex])
  else (false, s, if cfg.badCrcConfigured then [MpEv.badCrcCall] else [])

/-- `mpUbloxReadChecksumA`. -/
def mpUbloxReadChecksumAStep (cfg : MpCfg) (s : MpPs) (d : Nat) :
    Bool × MpPs × List MpEv :=
  if d = s.checksumA then (true, { s with st := MpSt.uCkB }, [])
  else (false, s, if cfg.badCrcConfigured then [MpEv.badCrcCall] else [])

/-- `mpUbloxReadPayload`: accumulate the Fletcher checksum and count down. -/
def mpUbloxReadPayloadStep (s : MpPs) (d : Nat) : Bool × MpPs × List MpEv :=
  let s1 := mpUbloxComputeChecksum s d
  let br := dec16 s1.ubloxBytesRemaining
  let s2 := { s1 with ubloxBytesRemaining := br }
  if br = 0 then (true, { s2 with st := MpSt.uCkA }, [])
  else (true, s2, [])

/-- `mpUbloxReadLengthHigh`: assemble the little-endian length, enforce the
buffer headroom (`bufferLength - length - 2`, computed in C `int`
arithmetic), and proceed to the payload (or directly to the checksum). -/
def mpUbloxReadLengthHighStep (cfg : MpCfg) (s : MpPs) (d : Nat) :
    Bool × MpPs × List MpEv :=
  let s1 := mpUbloxComputeChecksum s d
  let br := s1.ubloxBytesRemaining ||| (d <<< 8)
  let s2 := { s1 with ubloxBytesRemaining := br }
  if (br : Int) > (cfg.bufferLength : Int) - (s2.buf.length : Int) - 2 then
    (false, s2, [])
  else if br = 0 then (true, { s2 with st := MpSt.uCkA }, [])
  else (true, { s2 with st := MpSt.uPayload }, [])

/-- `mpUbloxReadLengthLow`. -/
def mpUbloxReadLengthLowStep (s : MpPs) (d : Nat) : Bool × MpPs × List MpEv :=
  let s1 := mpUbloxComputeChecksum s d
  (true, { s1 with ubloxBytesRemaining := d, st := MpSt.uLenHi }, [])

/-- `mpUbloxReadId`: reset the accumulators, fold in CLASS (read back from
the committed buffer) and ID. -/
def mpUbloxReadIdStep (s : MpPs) (d : Nat) : Bool × MpPs × List MpEv :=
  let s1 := { s with checksumA := 0, checksumB := 0 }
  let s2 := mpUbloxComputeChecksum s1 (s1.buf.getD (s1.buf.length - 2) 0)
  let s3 := mpUbloxComputeChecksum s2 d
  (true, { s3 with st := MpSt.uLenLo }, [])

/-- `mpUbloxReadClass`: the Fletcher over CLASS is folded in by the ID
state. -/
def mpUbloxReadClassStep (s : MpPs) : Bool × MpPs × List MpEv :=
  (true, { s with st := MpSt.uId }, [])

/-- `mpUbloxSync2`: require `0x62`. -/
def mpUbloxSync2Step (s : MpPs) (d : Nat) : Bool × MpPs × List MpEv :=
  if d ≠ 0x62 then (false, s, [])
  else (true, { s with st := MpSt.uClass }, [])

/-- `msgp_ublox_preamble`: accept `0xB5`, reset the buffer to the preamble
byte. -/
def msgp_ublox_preamble (s : MpPs) (d : Nat) : Bool × MpPs :=
  if d ≠ 0xB5 then (false, s)
  else (true, { s with buf := [d], computeCrc := false, st := MpSt.uSync2 })

/-- `mpRtcmReadCrc24_3`: assemble the last CRC byte, recompute CRC24Q over
the frame minus its trailing CRC, and fire `on_message` on match (the
protocol tag is the constant `MP_PROTOCOL_RTCM = 3`); mismatches are only
logged. -/
def mpRtcmReadCrc24_3Step (s : MpPs) (d : Nat) : Bool × MpPs × List MpEv :=
  let s1 := { s with rtcmCrc := s.rtcmCrc ||| d }
  let computed := mpRtcmComputeCrc24 (s1.buf.take (s1.buf.length - 3))
  if s1.rtcmCrc = computed then (false, s1, [MpEv.msg s1.buf 3])
  else (false, s1, [])

/-- `mpRtcmReadCrc24_2`. -/
def mpRtcmReadCrc24_2Step (s : MpPs) (d : Nat) : Bool × MpPs × List MpEv :=
  (true, { s with rtcmCrc := s.rtcmCrc ||| (d <<< 8), st := MpSt.rCrc3 }, [])

/-- `mpRtcmReadCrc24_1`. -/
def mpRtcmReadCrc24_1Step (s : MpPs) (d : Nat) : Bool × MpPs × List MpEv :=
  (true, { s with rtcmCrc := d <<< 16, st := MpSt.rCrc2 }, [])

/-- `mpRtcmReadPayload`: count down the payload. -/
def mpRtcmReadPayloadStep (s : MpPs) : Bool × MpPs × List MpEv :=
  let br := dec16 s.rtcmBytesRemaining
  let s1 := { s with rtcmBytesRemaining := br }
  if br = 0 then (true, { s1 with st := MpSt.rCrc1 }, [])
  else (true, s1, [])

/-- `mpRtcmReadLengthLow` (`Parse_RTCM.c`): the state entered directly from
the preamble.  It ORs the byte into the (stale) `messageLength` scratch
field, checks the length bounds, and proceeds; there is no length-high state
and no reserved-bits check. -/
def mpRtcmReadLengthLowStep (cfg : MpCfg) (s : MpPs) (d : Nat) :
    Bool × MpPs × List MpEv :=
  let ml := s.rtcmMessageLength ||| d
  let s1 := { s with rtcmMessageLength := ml, rtcmBytesRemaining := ml }
  if 1023 < ml ∨ ((ml : Int) > (cfg.bufferLength : Int) - (s1.buf.length : Int) - 3) then
    (false, s1, [])
  else if s1.rtcmBytesRemaining = 0 then (true, { s1 with st := MpSt.rCrc1 }, [])
  else (true, { s1 with st := MpSt.rPayload }, [])

/-- `mpRtcmPreamble`: accept `0xD3` and go straight to `mpRtcmReadLengthLow`
(the buffer is managed by the dispatcher in this draft). -/
def mpRtcmPreamble (s : MpPs) (d : Nat) : Bool × MpPs :=
  if d ≠ 0xD3 then (false, s)
  else (true, { s with computeCrc := false, st := MpSt.rLenLow })

/-- The registry used for the MP model: NMEA, u-blox, RTCM. -/
def mpPreambleTable : List (MpPs → Nat → Bool × MpPs) :=
  [msgp_nmea_preamble, msgp_ublox_preamble, mpRtcmPreamble]

/-- Registry walk while scanning, recording the acceptor's index. -/
def mpWalk : List (MpPs → Nat → Bool × MpPs) → Nat → MpPs → Nat → Bool × MpPs
  | [], _, s, _ => (false, s)
  | r :: rest, idx, s, d =>
    match r s d with
    | (true, s') => (true, { s' with protocolIndex := idx })
    | (false, s') => mpWalk rest (idx + 1) s' d

/-- Modelled from the spec: the scanning step of the missing MP dispatcher
(§4.1): reset to `length = 0`, `crc = 0`, commit the byte and offer it to
each registered preamble in order. -/
def mpScan (s : MpPs) (d : Nat) : MpPs :=
  let s0 := { s with buf := [d], crc := 0, computeCrc := false,
                     st := MpSt.scanning }
  (mpWalk mpPreambleTable 0 s0 d).2

/-- Dispatch on the current state routine. -/
def mpStateStep (cfg : MpCfg) (s : MpPs) (d : Nat) : Bool × MpPs × List MpEv :=
  match s.st with
  | MpSt.scanning => (false, s, [])
  | MpSt.nFirstComma => mpNmeaFindFirstCommaStep s d
  | MpSt.nFindAsterisk => mpNmeaFindAsteriskStep cfg s d
  | MpSt.nChecksum1 => mpNmeaChecksumByte1Step s
  | MpSt.nChecksum2 => mpNmeaChecksumByte2Step s
  | MpSt.nLineTerm => mpNmeaLineTerminationStep cfg s
  | MpSt.uSync2 => mpUbloxSync2Step s d
  | MpSt.uClass => mpUbloxReadClassStep s
  | MpSt.uId => mpUbloxReadIdStep s d
  | MpSt.uLenLo => mpUbloxReadLengthLowStep s d
  | MpSt.uLenHi => mpUbloxReadLengthHighStep cfg s d
  | MpSt.uPayload => mpUbloxReadPayloadStep s d
  | MpSt.uCkA => mpUbloxReadChecksumAStep cfg s d
  | MpSt.uCkB => mpUbloxReadChecksumBStep cfg s d
  | MpSt.rLenLow => mpRtcmReadLengthLowStep cfg s d
  | MpSt.rPayload => mpRtcmReadPayloadStep s
  | MpSt.rCrc1 => mpRtcmReadCrc24_1Step s d
  | MpSt.rCrc2 => mpRtcmReadCrc24_2Step s d
  | MpSt.rCrc3 => mpRtcmReadCrc24_3Step s d

/-- Modelled from the spec: the missing MP dispatcher `msgp_processByte`.
While scanning, offer the byte to the registry (§4.1).  Otherwise enforce
capacity (logging and rescanning on overflow), commit the byte, update the
streaming CRC when installed, run the state routine, and on failure return to
scanning re-offering the current byte (§4.8). -/
def mpProcessByte (cfg : MpCfg) (s : MpPs) (d : Nat) : MpPs × List MpEv :=
  if s.st = MpSt.scanning then (mpScan s d, [])
  else if cfg.bufferLength ≤ s.buf.length then (mpScan s d, [MpEv.errTooLong])
  else
    let s1 := { s with buf := s.buf ++ [d] }
    let s2 := if s1.computeCrc then
        { s1 with crc := sempCustomComputeCrc s1.crc d } else s1
    match mpStateStep cfg s2 d with
    | (true, s', evs) => (s', evs)
    | (false, s', evs) => (mpScan s' d, evs)

/-- Freshly configured MP session. -/
def mpInitState : MpPs :=
  { st := MpSt.scanning, buf := [], crc := 0, computeCrc := false,
    protocolIndex := 0, nmeaName := [], ubloxBytesRemaining := 0,
    checksumA := 0, checksumB := 0, rtcmMessageLength := 0,
    rtcmBytesRemaining := 0, rtcmCrc := 0 }

/-- Feed a byte sequence into the MP model. -/
def mpRun (cfg : MpCfg) (s : MpPs) : List Nat → MpPs × List MpEv
  | [] => (s, [])
  | d :: rest =>
    let r1 := mpProcessByte cfg s d
    let r2 := mpRun cfg r1.1 rest
    (r2.1, r1.2 ++ r2.2)

/-- Default MP configuration. -/
def mpCfg256 : MpCfg := { bufferLength := 256, badCrcConfigured := false }

/-- Fletcher-8 pair over a byte list, starting from `(0, 0)`:
`ck_a ← (ck_a + b) mod 256; ck_b ← (ck_b + ck_a) mod 256`. -/
def fletcherPair (bs : List Nat) : Nat × Nat :=
  bs.foldl (fun p d => ((p.1 + d) % 256, (p.2 + (p.1 + d) % 256) % 256)) (0, 0)

theorem fletcherPair_append (l : List Nat) (d : Nat) :
    fletcherPair (l ++ [d]) =
      (((fletcherPair l).1 + d) % 256,
       ((fletcherPair l).2 + ((fletcherPair l).1 + d) % 256) % 256) := by
  simp [fletcherPair, List.foldl_append]

theorem drop2_append {l : List Nat} (h : 2 ≤ l.length) (d : Nat) :
    (l ++ [d]).drop 2 = l.drop 2 ++ [d] := by
  rw [List.drop_append_of_le_length h]

theorem drop2_of_len3 {l : List Nat} (h : l.length = 3) :
    l.drop 2 = [l.getD 2 0] := by
  rcases l with _ | ⟨a, _ | ⟨b, _ | ⟨c, _ | rest⟩⟩⟩ <;> simp_all

theorem mpUCC_buf (s : MpPs) (d : Nat) :
    (mpUbloxComputeChecksum s d).buf = s.buf := rfl

theorem mpUCC_st (s : MpPs) (d : Nat) :
    (mpUbloxComputeChecksum s d).st = s.st := rfl

theorem mpUCC_protocolIndex (s : MpPs) (d : Nat) :
    (mpUbloxComputeChecksum s d).protocolIndex = s.protocolIndex := rfl

theorem mpUCC_computeCrc (s : MpPs) (d : Nat) :
    (mpUbloxComputeChecksum s d).computeCrc = s.computeCrc := rfl

theorem mpUCC_ubloxBytesRemaining (s : MpPs) (d : Nat) :
    (mpUbloxComputeChecksum s d).ubloxBytesRemaining = s.ubloxBytesRemaining :=
  rfl

/-- Folding one byte into the Fletcher accumulators tracks `fletcherPair`. -/
theorem mpUCC_pair (s : MpPs) (d : Nat) (l : List Nat)
    (h : (s.checksumA, s.checksumB) = fletcherPair l) :
    ((mpUbloxComputeChecksum s d).checksumA,
      (mpUbloxComputeChecksum s d).checksumB) = fletcherPair (l ++ [d]) := by
  rw [fletcherPair_append, ← h]
  rfl

/-- Reachability invariant of the MP model: the streaming-CRC hook is never
installed, the active protocol index matches the machine that is running, and
inside the u-blox machine the Fletcher accumulators equal the Fletcher pair
of the committed bytes from CLASS onward. -/
def MpInv (s : MpPs) : Prop :=
  s.computeCrc = false ∧
  (s.st = MpSt.nFirstComma ∨ s.st = MpSt.nFindAsterisk ∨ s.st = MpSt.nChecksum1 ∨
      s.st = MpSt.nChecksum2 ∨ s.st = MpSt.nLineTerm → s.protocolIndex = 0) ∧
  (s.st = MpSt.uSync2 → s.protocolIndex = 1 ∧ s.buf.length = 1) ∧
  (s.st = MpSt.uClass → s.protocolIndex = 1 ∧ s.buf.length = 2) ∧
  (s.st = MpSt.uId → s.protocolIndex = 1 ∧ s.buf.length = 3) ∧
  (s.st = MpSt.uLenLo ∨ s.st = MpSt.uLenHi ∨ s.st = MpSt.uPayload ∨
      s.st = MpSt.uCkA →
    s.protocolIndex = 1 ∧ 2 ≤ s.buf.length ∧
    (s.checksumA, s.checksumB) = fletcherPair (s.buf.drop 2)) ∧
  (s.st = MpSt.uCkB →
    s.protocolIndex = 1 ∧
    ∃ core, s.buf = core ++ [s.checksumA] ∧ 2 ≤ core.length ∧
      (s.checksumA, s.checksumB) = fletcherPair (core.drop 2))

theorem mpScan_inv (s : MpPs) (d : Nat) : MpInv (mpScan s d) := by
  unfold mpScan mpPreambleTable
  by_cases h36 : d = 36
  · simp only [mpWalk, msgp_nmea_preamble, h36]
    norm_num
    refine ⟨rfl, fun _ => rfl, ?_, ?_, ?_, ?_, ?_⟩ <;> intro h <;> simp at h
  · by_cases hb5 : d = 0xB5
    · simp [mpWalk, msgp_nmea_preamble, msgp_ublox_preamble, h36, hb5]
      refine ⟨rfl, ?_, fun _ => ⟨rfl, rfl⟩, ?_, ?_, ?_, ?_⟩ <;>
        intro h <;> simp at h
    · by_cases hd3 : d = 0xD3
      · simp [mpWalk, msgp_nmea_preamble, msgp_ublox_preamble, mpRtcmPreamble,
          h36, hb5, hd3]
        refine ⟨rfl, ?_, ?_, ?_, ?_, ?_, ?_⟩ <;> intro h <;> simp at h
      · simp [mpWalk, msgp_nmea_preamble, msgp_ublox_preamble, mpRtcmPreamble,
          h36, hb5, hd3]
        refine ⟨rfl, ?_, ?_, ?_, ?_, ?_, ?_⟩ <;> intro h <;> simp at h


theorem mp_step_inv (cfg : MpCfg) (s : MpPs) (d : Nat) (hI : MpInv s) :
    MpInv (mpProcessByte cfg s d).1 ∧
      ∀ b, MpEv.msg b 1 ∈ (mpProcessByte cfg s d).2 →
        4 ≤ b.length ∧
          (b.getD (b.length - 2) 0, b.getD (b.length - 1) 0) =
            fletcherPair ((b.take (b.length - 2)).drop 2) := by
  obtain ⟨hcc, hn, hu2, huC, huI, huL, huB⟩ := hI
  unfold mpProcessByte
  by_cases hsc : s.st = MpSt.scanning
  · rw [if_pos hsc]
    exact ⟨mpScan_inv s d, by intro b hm; simp at hm⟩
  · rw [if_neg hsc]
    by_cases hov : cfg.bufferLength ≤ s.buf.length
    · rw [if_pos hov]
      exact ⟨mpScan_inv s d, by intro b hm; simp at hm⟩
    · rw [if_neg hov]
      simp only [hcc, Bool.false_eq_true, if_false]
      cases hst : s.st with
      | scanning => exact absurd hst hsc
      | nFirstComma =>
        have hidx := hn (Or.inl hst)
        simp only [mpStateStep, hst, mpNmeaFindFirstCommaStep]
        by_cases h44 : d = 44
        · rw [if_pos h44]
          try dsimp only
          refine ⟨⟨rfl, fun _ => hidx, ?_, ?_, ?_, ?_, ?_⟩,
            by intro b hm; simp at hm⟩ <;> (intro h; simp at h)
        · rw [if_neg h44]
          by_cases h15 : s.nmeaName.length < 15
          · rw [if_pos h15]
            try dsimp only
            refine ⟨⟨rfl, fun _ => hidx, ?_, ?_, ?_, ?_, ?_⟩,
              by intro b hm; simp at hm⟩ <;> (intro h; simp [hst] at h)
          · rw [if_neg h15]
            try dsimp only
            exact ⟨mpScan_inv _ d, by intro b hm; simp at hm⟩
      | nFindAsterisk =>
        have hidx := hn (Or.inr (Or.inl hst))
        simp only [mpStateStep, hst, mpNmeaFindAsteriskStep]
        by_cases h42 : d = 42
        · rw [if_pos h42]
          try dsimp only
          refine ⟨⟨rfl, fun _ => hidx, ?_, ?_, ?_, ?_, ?_⟩,
            by intro b hm; simp at hm⟩ <;> (intro h; simp at h)
        · rw [if_neg h42]
          by_cases hroom : cfg.bufferLength < (s.buf ++ [d]).length + 6
          · rw [if_pos hroom]
            try dsimp only
            exact ⟨mpScan_inv _ d, by intro b hm; simp at hm⟩
          · rw [if_neg hroom]
            try dsimp only
            refine ⟨⟨rfl, fun _ => hidx, ?_, ?_, ?_, ?_, ?_⟩,
              by intro b hm; simp at hm⟩ <;> (intro h; simp [hst] at h)
      | nChecksum1 =>
        have hidx := hn (Or.inr (Or.inr (Or.inl hst)))
        simp only [mpStateStep, hst, mpNmeaChecksumByte1Step]
        by_cases hhex : (0 : Int) ≤ msgp_util_asciiToNibble
            ((s.buf ++ [d]).getD ((s.buf ++ [d]).length - 1) 0)
        · rw [if_pos hhex]
          try dsimp only
          refine ⟨⟨rfl, fun _ => hidx, ?_, ?_, ?_, ?_, ?_⟩,
            by intro b hm; simp at hm⟩ <;> (intro h; simp at h)
        · rw [if_neg hhex]
          try dsimp only
          exact ⟨mpScan_inv _ d, by intro b hm; simp at hm⟩
      | nChecksum2 =>
        have hidx := hn (Or.inr (Or.inr (Or.inr (Or.inl hst))))
        simp only [mpStateStep, hst, mpNmeaChecksumByte2Step]
        by_cases hhex : (0 : Int) ≤ msgp_util_asciiToNibble
            ((s.buf ++ [d]).getD ((s.buf ++ [d]).length - 1) 0)
        · rw [if_pos hhex]
          try dsimp only
          refine ⟨⟨rfl, fun _ => hidx, ?_, ?_, ?_, ?_, ?_⟩,
            by intro b hm; simp at hm⟩ <;> (intro h; simp at h)
        · rw [if_neg hhex]
          try dsimp only
          exact ⟨mpScan_inv _ d, by intro b hm; simp at hm⟩
      | nLineTerm =>
        have hidx := hn (Or.inr (Or.inr (Or.inr (Or.inr hst))))
        simp only [mpStateStep, hst, mpNmeaLineTerminationStep,
          mpNmeaValidateChecksum]
        try dsimp only
        refine ⟨?_, ?_⟩
        · split
          all_goals try split
          all_goals try split
          all_goals exact mpScan_inv _ d
        · intro b hm
          split at hm
          all_goals try split at hm
          all_goals try split at hm
          all_goals simp [hidx] at hm
      | uSync2 =>
        obtain ⟨hidx, hlen⟩ := hu2 hst
        simp only [mpStateStep, hst, mpUbloxSync2Step]
        by_cases h62 : d = 0x62
        · rw [if_neg (not_not_intro h62)]
          try dsimp only
          refine ⟨⟨rfl, ?_, ?_, fun _ => ⟨hidx, by simp [hlen]⟩, ?_, ?_, ?_⟩,
            by intro b hm; simp at hm⟩ <;> (intro h; simp at h)
        · rw [if_pos h62]
          try dsimp only
          exact ⟨mpScan_inv _ d, by intro b hm; simp at hm⟩
      | uClass =>
        obtain ⟨hidx, hlen⟩ := huC hst
        simp only [mpStateStep, hst, mpUbloxReadClassStep]
        try dsimp only
        refine ⟨⟨rfl, ?_, ?_, ?_, fun _ => ⟨hidx, by simp [hlen]⟩, ?_, ?_⟩,
          by intro b hm; simp at hm⟩ <;> (intro h; simp at h)
      | uId =>
        obtain ⟨hidx, hlen⟩ := huI hst
        simp only [mpStateStep, hst, mpUbloxReadIdStep, mpUCC_buf, mpUCC_st,
          mpUCC_protocolIndex, mpUCC_computeCrc, mpUCC_ubloxBytesRemaining]
        try dsimp only
        refine ⟨⟨rfl, ?_, ?_, ?_, ?_, fun _ => ⟨hidx, ?_, ?_⟩, ?_⟩,
          by intro b hm; simp at hm⟩
        · intro h; simp at h
        · intro h; simp at h
        · intro h; simp at h
        · intro h; simp at h
        · try dsimp only
          have hL : (s.buf ++ [d]).length = s.buf.length + 1 := by simp
          omega
        · try dsimp only
          have hgd : (s.buf ++ [d]).getD ((s.buf ++ [d]).length - 2) 0 =
              s.buf.getD 2 0 := by
            simp only [List.length_append, List.length_cons, List.length_nil]
            have h2 : s.buf.length + 1 - 2 = 2 := by omega
            rw [h2, List.getD_append _ _ _ _ (by omega)]
          have hdrop : (s.buf ++ [d]).drop 2 =
              [s.buf.getD 2 0] ++ [d] := by
            rw [drop2_append (by omega) d, drop2_of_len3 hlen]
            try rfl
          rw [hdrop, ← hgd]
          try exact mpUCC_pair _ d _ (mpUCC_pair _ _ [] rfl)
        · intro h; simp at h
      | uLenLo =>
        obtain ⟨hidx, hlen, hck⟩ := huL (Or.inl hst)
        simp only [mpStateStep, hst, mpUbloxReadLengthLowStep, mpUCC_buf,
          mpUCC_st, mpUCC_protocolIndex, mpUCC_computeCrc,
          mpUCC_ubloxBytesRemaining]
        try dsimp only
        refine ⟨⟨rfl, ?_, ?_, ?_, ?_, fun _ => ⟨hidx, ?_, ?_⟩, ?_⟩,
          by intro b hm; simp at hm⟩
        · intro h; simp at h
        · intro h; simp at h
        · intro h; simp at h
        · intro h; simp at h
        · try dsimp only
          have hL : (s.buf ++ [d]).length = s.buf.length + 1 := by simp
          omega
        · try dsimp only
          rw [drop2_append hlen d]
          try exact mpUCC_pair _ d _ hck
        · intro h; simp at h
      | uLenHi =>
        obtain ⟨hidx, hlen, hck⟩ := huL (Or.inr (Or.inl hst))
        simp only [mpStateStep, hst, mpUbloxReadLengthHighStep, mpUCC_buf,
          mpUCC_st, mpUCC_protocolIndex, mpUCC_computeCrc,
          mpUCC_ubloxBytesRemaining]
        try dsimp only
        split
        next s' evs heq =>
          split at heq
          · simp at heq
          · split at heq
            · injection heq with h1 h2
              injection h2 with h2 h3
              subst h2
              subst h3
              try dsimp only
              refine ⟨⟨rfl, ?_, ?_, ?_, ?_, fun _ => ⟨hidx, ?_, ?_⟩, ?_⟩,
                by intro b hm; simp at hm⟩
              · intro h; simp at h
              · intro h; simp at h
              · intro h; simp at h
              · intro h; simp at h
              · try dsimp only
                have hL : (s.buf ++ [d]).length = s.buf.length + 1 := by simp
                omega
              · try dsimp only
                rw [drop2_append hlen d]
                try exact mpUCC_pair _ d _ hck
              · intro h; simp at h
            · injection heq with h1 h2
              injection h2 with h2 h3
              subst h2
              subst h3
              try dsimp only
              refine ⟨⟨rfl, ?_, ?_, ?_, ?_, fun _ => ⟨hidx, ?_, ?_⟩, ?_⟩,
                by intro b hm; simp at hm⟩
              · intro h; simp at h
              · intro h; simp at h
              · intro h; simp at h
              · intro h; simp at h
              · try dsimp only
                have hL : (s.buf ++ [d]).length = s.buf.length + 1 := by simp
                omega
              · try dsimp only
                rw [drop2_append hlen d]
                try exact mpUCC_pair _ d _ hck
              · intro h; simp at h
        next s' evs heq =>
          split at heq
          · injection heq with h1 h2
            injection h2 with h2 h3
            subst h2
            subst h3
            exact ⟨mpScan_inv _ d, by intro b hm; simp at hm⟩
          · split at heq <;> simp at heq
      | uPayload =>
        obtain ⟨hidx, hlen, hck⟩ := huL (Or.inr (Or.inr (Or.inl hst)))
        simp only [mpStateStep, hst, mpUbloxReadPayloadStep, mpUCC_buf,
          mpUCC_st, mpUCC_protocolIndex, mpUCC_computeCrc,
          mpUCC_ubloxBytesRemaining]
        try dsimp only
        split
        next s' evs heq =>
          split at heq
          · injection heq with h1 h2
            injection h2 with h2 h3
            subst h2
            subst h3
            try dsimp only
            refine ⟨⟨rfl, ?_, ?_, ?_, ?_, fun _ => ⟨hidx, ?_, ?_⟩, ?_⟩,
              by intro b hm; simp at hm⟩
            · intro h; simp at h
            · intro h; simp at h
            · intro h; simp at h
            · intro h; simp at h
            · try dsimp only
              have hL : (s.buf ++ [d]).length = s.buf.length + 1 := by simp
              omega
            · try dsimp only
              rw [drop2_append hlen d]
              try exact mpUCC_pair _ d _ hck
            · intro h; simp at h
          · injection heq with h1 h2
            injection h2 with h2 h3
            subst h2
            subst h3
            try dsimp only
            refine ⟨⟨rfl, ?_, ?_, ?_, ?_, fun _ => ⟨hidx, ?_, ?_⟩, ?_⟩,
              by intro b hm; simp at hm⟩
            · intro h; simp [hst] at h
            · intro h; simp [hst] at h
            · intro h; simp [hst] at h
            · intro h; simp [hst] at h
            · try dsimp only
              have hL : (s.buf ++ [d]).length = s.buf.length + 1 := by simp
              omega
            · try dsimp only
              rw [drop2_append hlen d]
              try exact mpUCC_pair _ d _ hck
            · intro h; simp [hst] at h
        next s' evs heq =>
          split at heq <;> simp at heq
      | uCkA =>
        obtain ⟨hidx, hlen, hck⟩ := huL (Or.inr (Or.inr (Or.inr hst)))
        simp only [mpStateStep, hst, mpUbloxReadChecksumAStep]
        by_cases hda : d = s.checksumA
        · rw [if_pos (by exact hda)]
          try dsimp only
          refine ⟨⟨rfl, ?_, ?_, ?_, ?_, ?_, fun _ => ⟨hidx, s.buf, ?_, hlen, hck⟩⟩,
            by intro b hm; simp at hm⟩
          · intro h; simp at h
          · intro h; simp at h
          · intro h; simp at h
          · intro h; simp at h
          · intro h; simp at h
          · rw [hda]
        · rw [if_neg hda]
          try dsimp only
          refine ⟨mpScan_inv _ d, ?_⟩
          intro b hm
          by_cases hbcc : cfg.badCrcConfigured = true <;> simp [hbcc] at hm
      | uCkB =>
        obtain ⟨hidx, core, hcore, hclen, hck⟩ := huB hst
        simp only [mpStateStep, hst, mpUbloxReadChecksumBStep]
        by_cases hdb : d = s.checksumB
        · rw [if_pos (by exact hdb)]
          try dsimp only
          refine ⟨mpScan_inv _ d, ?_⟩
          intro b hm
          simp at hm
          obtain ⟨hb, -⟩ := hm
          subst hb
          have hbuf2 : s.buf ++ [d] = core ++ [s.checksumA, d] := by
            rw [hcore]
            simp
          rw [hbuf2]
          have hlen2 : (core ++ [s.checksumA, d]).length = core.length + 2 := by
            simp
          rw [hlen2]
          refine ⟨by omega, ?_⟩
          have e2 : core.length + 2 - 2 = core.length := by omega
          have e1 : core.length + 2 - 1 = core.length + 1 := by omega
          rw [e2, e1]
          rw [List.getD_append_right _ _ _ _ (by omega),
            List.getD_append_right _ _ _ _ (by omega)]
          rw [List.take_left' rfl]
          simp only [Nat.sub_self]
          have e3 : core.length + 1 - core.length = 1 := by omega
          rw [e3]
          simp only [List.getD]
          rw [hdb, ← hck]
          rfl
        · rw [if_neg hdb]
          try dsimp only
          refine ⟨mpScan_inv _ d, ?_⟩
          intro b hm
          by_cases hbcc : cfg.badCrcConfigured = true <;> simp [hbcc] at hm
      | rLenLow =>
        simp only [mpStateStep, hst, mpRtcmReadLengthLowStep]
        try dsimp only
        split
        next s' evs heq =>
          split at heq
          · simp at heq
          · split at heq
            · injection heq with h1 h2
              injection h2 with h2 h3
              subst h2
              subst h3
              try dsimp only
              refine ⟨⟨rfl, ?_, ?_, ?_, ?_, ?_, ?_⟩,
                by intro b hm; simp at hm⟩ <;> (intro h; simp at h)
            · injection heq with h1 h2
              injection h2 with h2 h3
              subst h2
              subst h3
              try dsimp only
              refine ⟨⟨rfl, ?_, ?_, ?_, ?_, ?_, ?_⟩,
                by intro b hm; simp at hm⟩ <;> (intro h; simp at h)
        next s' evs heq =>
          split at heq
          · injection heq with h1 h2
            injection h2 with h2 h3
            subst h2
            subst h3
            exact ⟨mpScan_inv _ d, by intro b hm; simp at hm⟩
          · split at heq <;> simp at heq
      | rPayload =>
        simp only [mpStateStep, hst, mpRtcmReadPayloadStep]
        try dsimp only
        split
        next s' evs heq =>
          split at heq
          · injection heq with h1 h2
            injection h2 with h2 h3
            subst h2
            subst h3
            try dsimp only
            refine ⟨⟨rfl, ?_, ?_, ?_, ?_, ?_, ?_⟩,
              by intro b hm; simp at hm⟩ <;> (intro h; simp at h)
          · injection heq with h1 h2
            injection h2 with h2 h3
            subst h2
            subst h3
            try dsimp only
            refine ⟨⟨rfl, ?_, ?_, ?_, ?_, ?_, ?_⟩,
              by intro b hm; simp at hm⟩ <;> (intro h; simp [hst] at h)
        next s' evs heq =>
          split at heq <;> simp at heq
      | rCrc1 =>
        simp only [mpStateStep, hst, mpRtcmReadCrc24_1Step]
        try dsimp only
        refine ⟨⟨rfl, ?_, ?_, ?_, ?_, ?_, ?_⟩,
          by intro b hm; simp at hm⟩ <;> (intro h; simp at h)
      | rCrc2 =>
        simp only [mpStateStep, hst, mpRtcmReadCrc24_2Step]
        try dsimp only
        refine ⟨⟨rfl, ?_, ?_, ?_, ?_, ?_, ?_⟩,
          by intro b hm; simp at hm⟩ <;> (intro h; simp at h)
      | rCrc3 =>
        simp only [mpStateStep, hst, mpRtcmReadCrc24_3Step]
        try dsimp only
        split
        next s' evs heq =>
          split at heq <;> simp at heq
        next s' evs heq =>
          split at heq
          · injection heq with h1 h2
            injection h2 with h2 h3
            subst h2
            subst h3
            refine ⟨mpScan_inv _ d, ?_⟩
            intro b hm
            simp at hm
          · injection heq with h1 h2
            injection h2 with h2 h3
            subst h2
            subst h3
            exact ⟨mpScan_inv _ d, by intro b hm; simp at hm⟩


theorem mpInit_inv : MpInv mpInitState := by
  refine ⟨rfl, ?_, ?_, ?_, ?_, ?_, ?_⟩ <;> (intro h; simp [mpInitState] at h)

theorem mp_run_inv (cfg : MpCfg) (bs : List Nat) (s : MpPs) (hI : MpInv s) :
    MpInv (mpRun cfg s bs).1 ∧
      ∀ b, MpEv.msg b 1 ∈ (mpRun cfg s bs).2 →
        4 ≤ b.length ∧
          (b.getD (b.length - 2) 0, b.getD (b.length - 1) 0) =
            fletcherPair ((b.take (b.length - 2)).drop 2) := by
  induction bs generalizing s with
  | nil => exact ⟨hI, by intro b hm; simp [mpRun] at hm⟩
  | cons d rest ih =>
    obtain ⟨h1, h2⟩ := mp_step_inv cfg s d hI
    obtain ⟨h3, h4⟩ := ih _ h1
    refine ⟨h3, ?_⟩
    intro b hm
    simp only [mpRun, List.mem_append] at hm
    rcases hm with hm | hm
    · exact h2 b hm
    · exact h4 b hm

def ubxFrame : List Nat := [0xB5, 0x62, 0x05, 0x01, 0x00, 0x00, 0x06, 0x17]

def mpCfgBadCrc : MpCfg := { bufferLength := 256, badCrcConfigured := true }

def mpCkAState : MpPs :=
  { st := MpSt.uCkA, buf := [0xB5, 0x62, 5, 1, 0, 0], crc := 0,
    computeCrc := false, protocolIndex := 1, nmeaName := [],
    ubloxBytesRemaining := 0, checksumA := 6, checksumB := 0x17,
    rtcmMessageLength := 0, rtcmBytesRemaining := 0, rtcmCrc := 0 }

def mpCkBState : MpPs :=
  { mpCkAState with st := MpSt.uCkB, buf := [0xB5, 0x62, 5, 1, 0, 0, 6] }

/-- C6: every u-blox frame accepted by the MP model carries, as its last two
bytes, the Fletcher-8 pair over CLASS..payload (the committed bytes with the
two sync bytes and the two checksum bytes excluded); a mismatch on either
checksum byte produces no message and, when configured, exactly the bad-CRC
callback. -/
theorem c6_ubx_fletcher :
    (∀ cfg bs b, MpEv.msg b 1 ∈ (mpRun cfg mpInitState bs).2 →
        4 ≤ b.length ∧
          (b.getD (b.length - 2) 0, b.getD (b.length - 1) 0) =
            fletcherPair ((b.take (b.length - 2)).drop 2)) ∧
    (∀ cfg s d, s.st = MpSt.uCkA → s.buf.length < cfg.bufferLength →
        d ≠ s.checksumA →
        (∀ b t, MpEv.msg b t ∉ (mpProcessByte cfg s d).2) ∧
        (cfg.badCrcConfigured = true →
          (mpProcessByte cfg s d).2 = [MpEv.badCrcCall])) ∧
    (∀ cfg s d, s.st = MpSt.uCkB → s.buf.length < cfg.bufferLength →
        d ≠ s.checksumB →
        (∀ b t, MpEv.msg b t ∉ (mpProcessByte cfg s d).2) ∧
        (cfg.badCrcConfigured = true →
          (mpProcessByte cfg s d).2 = [MpEv.badCrcCall])) := by
  refine ⟨?_, ?_, ?_⟩
  · intro cfg bs b hm
    exact (mp_run_inv cfg bs mpInitState mpInit_inv).2 b hm
  · intro cfg s d hst hcap hne
    unfold mpProcessByte
    rw [if_neg (by rw [hst]; simp), if_neg (not_le.mpr hcap)]
    by_cases hc : s.computeCrc = true <;>
      simp [hc, mpStateStep, hst, mpUbloxReadChecksumAStep, hne] <;>
      constructor <;>
      first
        | (intro b t hm
           by_cases hbcc : cfg.badCrcConfigured = true <;> simp [hbcc] at hm)
        | (intro hbcc; simp [hbcc])
  · intro cfg s d hst hcap hne
    unfold mpProcessByte
    rw [if_neg (by rw [hst]; simp), if_neg (not_le.mpr hcap)]
    by_cases hc : s.computeCrc = true <;>
      simp [hc, mpStateStep, hst, mpUbloxReadChecksumBStep, hne] <;>
      constructor <;>
      first
        | (intro b t hm
           by_cases hbcc : cfg.badCrcConfigured = true <;> simp [hbcc] at hm)
        | (intro hbcc; simp [hbcc])


set_option maxRecDepth 100000 in
theorem c6_ubx_fletcher_witness :
    (MpEv.msg ubxFrame 1 ∈ (mpRun mpCfg256 mpInitState ubxFrame).2 ∧
      4 ≤ ubxFrame.length ∧
        (ubxFrame.getD (ubxFrame.length - 2) 0,
          ubxFrame.getD (ubxFrame.length - 1) 0) =
          fletcherPair ((ubxFrame.take (ubxFrame.length - 2)).drop 2)) ∧
    (mpProcessByte mpCfgBadCrc mpCkAState 7).2 = [MpEv.badCrcCall] ∧
    (mpProcessByte mpCfgBadCrc mpCkBState 7).2 = [MpEv.badCrcCall] :=
  ⟨⟨by decide,
    c6_ubx_fletcher.1 mpCfg256 ubxFrame ubxFrame (by decide)⟩,
   (c6_ubx_fletcher.2.1 mpCfgBadCrc mpCkAState 7 rfl (by decide)
      (by decide)).2 rfl,
   (c6_ubx_fletcher.2.2 mpCfgBadCrc mpCkBState 7 rfl (by decide)
      (by decide)).2 rfl⟩

set_option maxRecDepth 100000 in
/-- C7: the MP RTCM machine has no length-high/reserved-bits state.  After
the `0xD3` preamble, a byte with reserved bits set (here `0x04`) is treated
as the low length byte: the parser stays in the frame reading a 4-byte
payload instead of retreating to scanning. -/
theorem c7_rtcm_no_reserved_check :
    (mpRun mpCfg256 mpInitState [0xD3, 0x04]).1.st = MpSt.rPayload ∧
    (mpRun mpCfg256 mpInitState [0xD3, 0x04]).1.rtcmMessageLength = 4 ∧
    (mpRun mpCfg256 mpInitState [0xD3, 0x04]).1.rtcmBytesRemaining = 4 ∧
    (mpRun mpCfg256 mpInitState [0xD3, 0x04]).2 = [] := by
  decide

theorem mpScan_buf (s : MpPs) (d : Nat) : (mpScan s d).buf = [d] := by
  unfold mpScan mpPreambleTable
  by_cases h36 : d = 36
  · simp [mpWalk, msgp_nmea_preamble, h36]
  · by_cases hb5 : d = 0xB5
    · simp [mpWalk, msgp_nmea_preamble, msgp_ublox_preamble, h36, hb5]
    · by_cases hd3 : d = 0xD3
      · simp [mpWalk, msgp_nmea_preamble, msgp_ublox_preamble, mpRtcmPreamble,
          h36, hb5, hd3]
      · simp [mpWalk, msgp_nmea_preamble, msgp_ublox_preamble, mpRtcmPreamble,
          h36, hb5, hd3]

theorem sempFirstByte_bufEq (s : SempPs) (d : Nat) :
    (sempFirstByte sempTable s d).2.buf = [d] := by
  unfold sempFirstByte sempTable sempCustomPreamble sempScanReset
  by_cases haa : d = 0xAA
  · simp [haa, sempWalkTable]
  · simp [haa, sempWalkTable]

theorem mpStateStep_true_buf (cfg : MpCfg) (s : MpPs) (d : Nat) (s' : MpPs)
    (evs : List MpEv) (h : mpStateStep cfg s d = (true, s', evs)) :
    s'.buf = s.buf := by
  cases hst : s.st <;>
    simp only [mpStateStep, hst, mpNmeaFindFirstCommaStep,
      mpNmeaFindAsteriskStep, mpNmeaChecksumByte1Step, mpNmeaChecksumByte2Step,
      mpNmeaLineTerminationStep, mpNmeaValidateChecksum, mpUbloxSync2Step,
      mpUbloxReadClassStep, mpUbloxReadIdStep, mpUbloxReadLengthLowStep,
      mpUbloxReadLengthHighStep, mpUbloxReadPayloadStep,
      mpUbloxReadChecksumAStep, mpUbloxReadChecksumBStep,
      mpRtcmReadLengthLowStep, mpRtcmReadPayloadStep, mpRtcmReadCrc24_1Step,
      mpRtcmReadCrc24_2Step, mpRtcmReadCrc24_3Step] at h
  all_goals try exact Bool.noConfusion (congrArg Prod.fst h)
  all_goals try split at h
  all_goals try split at h
  all_goals try exact Bool.noConfusion (congrArg Prod.fst h)
  all_goals injection h with h1 h2
  all_goals injection h2 with h2 h3
  all_goals subst h2
  all_goals first | rfl | simp [mpUbloxComputeChecksum]

theorem sempStateStep_buf (cfg : SempCfg) (s : SempPs) (d : Nat) :
    (sempStateStep cfg s d).1.buf = s.buf ∨
      (sempStateStep cfg s d).1.buf = [d] := by
  cases hst : s.st <;>
    simp only [sempStateStep, hst, sempCustomSync2Step, sempCustomSync3Step,
      sempCustomReadHeaderStep, sempCustomReadDataStep, sempCustomReadCrcStep]
  · exact Or.inr (sempFirstByte_bufEq s d)
  · split
    · exact Or.inr (sempFirstByte_bufEq s d)
    · exact Or.inl rfl
  · split
    · exact Or.inr (sempFirstByte_bufEq s d)
    · exact Or.inl rfl
  · split <;> exact Or.inl rfl
  · split <;> exact Or.inl rfl
  · split <;> exact Or.inl rfl

theorem sempParseNext_buf (cfg : SempCfg) (s : SempPs) (d : Nat) :
    ((sempParseNextByte cfg s d).1.buf = s.buf ++ [d] ∧
        s.buf.length < cfg.bufferLength) ∨
      (sempParseNextByte cfg s d).1.buf = [d] := by
  unfold sempParseNextByte
  by_cases hov : cfg.bufferLength ≤ s.buf.length
  · rw [if_pos hov]
    exact Or.inr (sempFirstByte_bufEq s d)
  · rw [if_neg hov]
    by_cases hc : s.computeCrc = true
    · simp only [hc, if_true]
      try dsimp only
      rcases sempStateStep_buf cfg
          { s with buf := s.buf ++ [d],
                   crc := sempCustomComputeCrc s.crc d,
                   computeCrc := true } d with h | h
      · exact Or.inl ⟨by simpa using h, not_le.mp hov⟩
      · exact Or.inr h
    · simp only [hc, Bool.false_eq_true, if_false]
      try dsimp only
      rcases sempStateStep_buf cfg
          { s with buf := s.buf ++ [d], computeCrc := false } d with h | h
      · exact Or.inl ⟨by simpa using h, not_le.mp hov⟩
      · exact Or.inr h

theorem mpProcessByte_buf (cfg : MpCfg) (s : MpPs) (d : Nat) :
    ((mpProcessByte cfg s d).1.buf = s.buf ++ [d] ∧
        s.buf.length < cfg.bufferLength) ∨
      (mpProcessByte cfg s d).1.buf = [d] := by
  unfold mpProcessByte
  by_cases hsc : s.st = MpSt.scanning
  · rw [if_pos hsc]
    exact Or.inr (mpScan_buf s d)
  · rw [if_neg hsc]
    by_cases hov : cfg.bufferLength ≤ s.buf.length
    · rw [if_pos hov]
      exact Or.inr (mpScan_buf s d)
    · rw [if_neg hov]
      by_cases hc : s.computeCrc = true
      · simp only [hc, if_true]
        split
        next s' evs heq =>
          refine Or.inl ⟨?_, not_le.mp hov⟩
          have hb := mpStateStep_true_buf cfg _ d s' evs heq
          simpa using hb
        next s' evs heq =>
          exact Or.inr (mpScan_buf _ d)
      · simp only [hc, Bool.false_eq_true, if_false]
        split
        next s' evs heq =>
          refine Or.inl ⟨?_, not_le.mp hov⟩
          have hb := mpStateStep_true_buf cfg _ d s' evs heq
          simpa using hb
        next s' evs heq =>
          exact Or.inr (mpScan_buf _ d)

/-- C8: per consumed byte, in both the SEMP framework and the MP draft, the
committed length either grows by exactly one (only possible below capacity)
or the machine is back at a fresh scan holding just the current byte; the
length never exceeds the configured capacity. -/
theorem c8_length_step :
    (∀ cfg s d, 1 ≤ cfg.bufferLength →
        ((sempParseNextByte cfg s d).1.buf.length = s.buf.length + 1 ∧
            s.buf.length < cfg.bufferLength ∨
          (sempParseNextByte cfg s d).1.buf.length = 1) ∧
        (sempParseNextByte cfg s d).1.buf.length ≤ cfg.bufferLength) ∧
    (∀ cfg s d, 1 ≤ cfg.bufferLength →
        ((mpProcessByte cfg s d).1.buf.length = s.buf.length + 1 ∧
            s.buf.length < cfg.bufferLength ∨
          (mpProcessByte cfg s d).1.buf.length = 1) ∧
        (mpProcessByte cfg s d).1.buf.length ≤ cfg.bufferLength) := by
  constructor
  · intro cfg s d hB
    rcases sempParseNext_buf cfg s d with ⟨h, hlt⟩ | h
    · have hl : (sempParseNextByte cfg s d).1.buf.length =
          s.buf.length + 1 := by
        rw [h]
        simp
      exact ⟨Or.inl ⟨hl, hlt⟩, by omega⟩
    · have hl : (sempParseNextByte cfg s d).1.buf.length = 1 := by
        rw [h]
        rfl
      exact ⟨Or.inr hl, by omega⟩
  · intro cfg s d hB
    rcases mpProcessByte_buf cfg s d with ⟨h, hlt⟩ | h
    · have hl : (mpProcessByte cfg s d).1.buf.length =
          s.buf.length + 1 := by
        rw [h]
        simp
      exact ⟨Or.inl ⟨hl, hlt⟩, by omega⟩
    · have hl : (mpProcessByte cfg s d).1.buf.length = 1 := by
        rw [h]
        rfl
      exact ⟨Or.inr hl, by omega⟩

theorem c8_length_step_witness :
    (1 ≤ cfg256.bufferLength ∧
      ((sempParseNextByte cfg256 sempInitState 0xAA).1.buf.length =
          sempInitState.buf.length + 1 ∧
          sempInitState.buf.length < cfg256.bufferLength ∨
        (sempParseNextByte cfg256 sempInitState 0xAA).1.buf.length = 1) ∧
      (sempParseNextByte cfg256 sempInitState 0xAA).1.buf.length ≤
        cfg256.bufferLength) ∧
    (1 ≤ mpCfg256.bufferLength ∧
      ((mpProcessByte mpCfg256 mpInitState 36).1.buf.length =
          mpInitState.buf.length + 1 ∧
          mpInitState.buf.length < mpCfg256.bufferLength ∨
        (mpProcessByte mpCfg256 mpInitState 36).1.buf.length = 1) ∧
      (mpProcessByte mpCfg256 mpInitState 36).1.buf.length ≤
        mpCfg256.bufferLength) :=
  ⟨⟨by decide, c8_length_step.1 cfg256 sempInitState 0xAA (by decide)⟩,
   ⟨by decide, c8_length_step.2 mpCfg256 mpInitState 36 (by decide)⟩⟩

/-- States of the single-protocol framework of `src/src/semp_parser.c` (the
state function pointers of `SEMP_PARSE_STATE`). -/
inductive SpSt where
  | firstByte
  | sync2
  | sync3
  | readHeader
  | readData
  | readCrc
deriving DecidableEq, Repr

/-- Configuration of `sempInitParser`: the buffer capacity `maxLength` and
the optional bad-CRC callback, modelled by its constant return value. -/
structure SpCfg where
  maxLength : Nat
  badCrc : Option Bool
deriving DecidableEq, Repr

/-- The mutable fields of the `src/src/semp_parser.c` `SEMP_PARSE_STATE`:
state, committed buffer (`buffer`/`length`), running CRC, whether the
`computeCrc` hook has been installed, `type`, and the scratch-pad
`bytesRemaining`/`crc`. -/
structure SpPs where
  st : SpSt
  buf : List Nat
  crc : Nat
  computeCrc : Bool
  ty : Nat
  bytesRemaining : Nat
  scratchCrc : Nat
deriving DecidableEq, Repr

/-- The bounded byte store used by every state of this framework:
`if (parse->length < parse->maxLength) parse->buffer[parse->length++] = data`. -/
def spStore (cfg : SpCfg) (s : SpPs) (d : Nat) : SpPs :=
  if s.buf.length < cfg.maxLength then { s with buf := s.buf ++ [d] } else s

/-- `parse->crc = parse->computeCrc(parse, data)` — the hook is the CRC32
table step `sempBluetoothComputeCrc`, installed by the preamble. -/
def spCrcUpdate (s : SpPs) (d : Nat) : SpPs :=
  if s.computeCrc then { s with crc := sempCustomComputeCrc s.crc d } else s

/-- `sempBluetoothPreamble`: on `0xAA`, seed the CRC with `0xFFFFFFFF`,
install the CRC hook, fold in the byte, store it and go to `sync2`. -/
def sempBluetoothPreamble (cfg : SpCfg) (s : SpPs) (d : Nat) :
    Bool × SpPs × List SempEv :=
  if d ≠ 0xAA then (false, s, [])
  else
    let s1 := { s with crc := sempCustomComputeCrc 0xFFFFFFFF d,
                       computeCrc := true }
    (true, { spStore cfg s1 d with st := SpSt.sync2 }, [])

/-- `sempFirstByte` of `src/src/semp_parser.c` (named apart from the
`Message_Parser.c` function of the same name): reset `length` and `crc`,
then offer the byte to the Bluetooth preamble. -/
def spFirstByte (cfg : SpCfg) (s : SpPs) (d : Nat) :
    Bool × SpPs × List SempEv :=
  sempBluetoothPreamble cfg { s with buf := [], crc := 0 } d

/-- `sempBluetoothSync2`: require `0x44`, else restart via `spFirstByte`
with the same byte. -/
def sempBluetoothSync2 (cfg : SpCfg) (s : SpPs) (d : Nat) :
    Bool × SpPs × List SempEv :=
  if d ≠ 0x44 then spFirstByte cfg s d
  else (true, { spStore cfg (spCrcUpdate s d) d with st := SpSt.sync3 }, [])

/-- `sempBluetoothSync3`: require `0x18`, else restart via `spFirstByte`. -/
def sempBluetoothSync3 (cfg : SpCfg) (s : SpPs) (d : Nat) :
    Bool × SpPs × List SempEv :=
  if d ≠ 0x18 then spFirstByte cfg s d
  else
    (true, { spStore cfg (spCrcUpdate s d) d with st := SpSt.readHeader }, [])

/-- `sempBluetoothReadHeader`: accumulate the 20-byte header; then check
`headerLength == 0x14` (offset 3), read the little-endian `messageLength`
(offsets 12..13) and `messageType` (offset 17), and move on — directly to
the CRC when the payload is empty. -/
def sempBluetoothReadHeader (cfg : SpCfg) (s : SpPs) (d : Nat) :
    Bool × SpPs × List SempEv :=
  let s1 := spStore cfg (spCrcUpdate s d) d
  if 20 ≤ s1.buf.length then
    if s1.buf.getD 3 0 ≠ 0x14 then
      (false, { s1 with st := SpSt.firstByte }, [])
    else
      let ml := s1.buf.getD 12 0 + 256 * s1.buf.getD 13 0
      let s2 := { s1 with bytesRemaining := ml, ty := s1.buf.getD 17 0 }
      if ml = 0 then
        let crc2 := s2.crc ^^^ 0xFFFFFFFF
        (true, { s2 with bytesRemaining := 4, crc := crc2, scratchCrc := crc2,
                         st := SpSt.readCrc }, [])
      else (true, { s2 with st := SpSt.readData }, [])
  else (true, s1, [])

/-- `sempBluetoothReadData`: fold and store payload bytes, counting down;
at zero, finalize and snapshot the CRC and go read the CRC field. -/
def sempBluetoothReadData (cfg : SpCfg) (s : SpPs) (d : Nat) :
    Bool × SpPs × List SempEv :=
  let s1 := spStore cfg (spCrcUpdate s d) d
  let br := dec16 s1.bytesRemaining
  if br = 0 then
    let crc2 := s1.crc ^^^ 0xFFFFFFFF
    (true, { s1 with bytesRemaining := 4, crc := crc2, scratchCrc := crc2,
                     st := SpSt.readCrc }, [])
  else (true, { s1 with bytesRemaining := br }, [])

/-- `sempBluetoothReadCrc`: store the four CRC bytes (no CRC folding); on
the last one compare the little-endian trailer with the snapshot: a match
fires `eomCallback(parse, parse->type)`, a mismatch invokes the configured
bad-CRC callback (whose result only gates logging); either way the parser
returns to `spFirstByte` and reports `false`. -/
def sempBluetoothReadCrc (cfg : SpCfg) (s : SpPs) (d : Nat) :
    Bool × SpPs × List SempEv :=
  let s1 := spStore cfg s d
  let br := dec16 s1.bytesRemaining
  if br ≠ 0 then (true, { s1 with bytesRemaining := br }, [])
  else
    let crcRead :=
      if 4 ≤ s1.buf.length then
        s1.buf.getD (s1.buf.length - 4) 0 +
          256 * s1.buf.getD (s1.buf.length - 3) 0 +
          65536 * s1.buf.getD (s1.buf.length - 2) 0 +
          16777216 * s1.buf.getD (s1.buf.length - 1) 0
      else 0
    let evs :=
      if crcRead = s1.scratchCrc then [SempEv.msg s1.buf s1.ty]
      else
        match cfg.badCrc with
        | none => []
        | some _ => [SempEv.badCrcCall]
    (false, { s1 with bytesRemaining := br, st := SpSt.firstByte }, evs)

/-- `sempProcessByte`: dispatch on the current state function. -/
def sempProcessByte (cfg : SpCfg) (s : SpPs) (d : Nat) :
    Bool × SpPs × List SempEv :=
  match s.st with
  | SpSt.firstByte => spFirstByte cfg s d
  | SpSt.sync2 => sempBluetoothSync2 cfg s d
  | SpSt.sync3 => sempBluetoothSync3 cfg s d
  | SpSt.readHeader => sempBluetoothReadHeader cfg s d
  | SpSt.readData => sempBluetoothReadData cfg s d
  | SpSt.readCrc => sempBluetoothReadCrc cfg s d

/-- `sempProcessBuffer`: feed bytes until one returns `false`, counting only
the bytes that returned `true`; the breaking byte's effects and events have
already happened when the loop stops. -/
def sempProcessBuffer (cfg : SpCfg) (s : SpPs) :
    List Nat → Nat × SpPs × List SempEv
  | [] => (0, s, [])
  | d :: rest =>
    match sempProcessByte cfg s d with
    | (true, s', evs) =>
      let r := sempProcessBuffer cfg s' rest
      (r.1 + 1, r.2.1, evs ++ r.2.2)
    | (false, s', evs) => (0, s', evs)

/-- The per-byte loop `for each x in b: sempProcessByte(parse, x)` that the
specification equates with `sempProcessBuffer`. -/
def spFeedAll (cfg : SpCfg) (s : SpPs) : List Nat → SpPs × List SempEv
  | [] => (s, [])
  | d :: rest =>
    match sempProcessByte cfg s d with
    | (_, s', evs) =>
      let r := spFeedAll cfg s' rest
      (r.1, evs ++ r.2)

/-- Number of bytes the buffer loop actually feeds before stopping (the
breaking byte included). -/
def spConsumed (cfg : SpCfg) (s : SpPs) : List Nat → Nat
  | [] => 0
  | d :: rest =>
    match sempProcessByte cfg s d with
    | (true, s', _) => spConsumed cfg s' rest + 1
    | (false, _, _) => 1

/-- Number of bytes the buffer loop counts (`true` returns only). -/
def spCount (cfg : SpCfg) (s : SpPs) : List Nat → Nat
  | [] => 0
  | d :: rest =>
    match sempProcessByte cfg s d with
    | (true, s', _) => spCount cfg s' rest + 1
    | (false, _, _) => 0

/-- Freshly initialized `src/src/semp_parser.c` session. -/
def spInitState : SpPs :=
  { st := SpSt.firstByte, buf := [], crc := 0, computeCrc := false,
    ty := 0, bytesRemaining := 0, scratchCrc := 0 }

/-- A small configuration for concrete runs. -/
def spCfg64 : SpCfg := { maxLength := 64, badCrc := none }

/-- C9 counterexample: `sempProcessBuffer` breaks at the first `false`
return, so on `[0x00, 0xAA]` it stops after the rejected `0x00` and never
feeds the `0xAA`, while the per-byte loop does; the resulting parser states
differ. -/
theorem c9_counterexample :
    (sempProcessBuffer spCfg64 spInitState [0x00, 0xAA]).2.1 ≠
      (spFeedAll spCfg64 spInitState [0x00, 0xAA]).1 := by
  decide

/-- C9 (amended): `sempProcessBuffer` equals the per-byte loop restricted to
the prefix it actually consumed — every fed byte's state change and events
are those of `sempProcessByte`, in order, but the loop stops after the
first `false` and counts only the `true` returns. -/
theorem c9_buffer_prefix_equiv (cfg : SpCfg) (s : SpPs) (bs : List Nat) :
    sempProcessBuffer cfg s bs =
      (spCount cfg s bs,
        spFeedAll cfg s (bs.take (spConsumed cfg s bs))) := by
  induction bs generalizing s with
  | nil => rfl
  | cons d rest ih =>
    rcases hstep : sempProcessByte cfg s d with ⟨b, s', evs⟩
    cases b
    · simp only [sempProcessBuffer, spCount, spConsumed, hstep, List.take,
        spFeedAll, List.take_zero]
      simp [spFeedAll]
    · simp only [sempProcessBuffer, spCount, spConsumed, hstep, List.take,
        spFeedAll, ih]

/-- XOR-8 accumulator (`crc ^= data` in `Parse_NMEA.c`). -/
def xor8 (bs : List Nat) : Nat := bs.foldl (fun a d => a ^^^ d) 0

theorem xor8_append (l : List Nat) (d : Nat) :
    xor8 (l ++ [d]) = xor8 l ^^^ d := by
  simp [xor8, List.foldl_append]

theorem drop1_append {l : List Nat} (h : 1 ≤ l.length) (d : Nat) :
    (l ++ [d]).drop 1 = l.drop 1 ++ [d] := by
  rw [List.drop_append_of_le_length h]

/-- The NMEA integrity check over a delivered sentence: the frame is
`$ name,fields * h1 h2 CR LF`, the two checksum characters are hex digits,
and they decode to the XOR of the bytes strictly between `$` and `*`. -/
def mpNmeaDelivered (b : List Nat) : Prop :=
  ∃ pre h1 h2, b = pre ++ [42, h1, h2, 13, 10] ∧
    0 ≤ msgp_util_asciiToNibble h1 ∧ 0 ≤ msgp_util_asciiToNibble h2 ∧
    msgp_util_asciiToNibble h1 * 16 + msgp_util_asciiToNibble h2 =
      ((xor8 (pre.drop 1) &&& 255 : Nat) : Int)

/-- The u-blox integrity check over a delivered frame: its last two bytes
are the Fletcher-8 pair over CLASS..payload. -/
def mpUbloxDelivered (b : List Nat) : Prop :=
  4 ≤ b.length ∧
    (b.getD (b.length - 2) 0, b.getD (b.length - 1) 0) =
      fletcherPair ((b.take (b.length - 2)).drop 2)

/-- The RTCM integrity check over a delivered frame: the CRC24Q of the frame
minus its trailer equals the 24-bit big-endian trailer. -/
def mpRtcmDelivered (b : List Nat) : Prop :=
  ∃ core c1 c2 c3, b = core ++ [c1, c2, c3] ∧
    mpRtcmComputeCrc24 core = ((c1 <<< 16) ||| (c2 <<< 8)) ||| c3

/-- Second reachability invariant of the MP model: the NMEA running XOR
tracks the committed bytes after `$`, the checksum characters sit at the
buffer tail in the checksum states, and the RTCM CRC states hold the partial
big-endian trailer read back from the committed bytes. -/
def MpInv2 (s : MpPs) : Prop :=
  (s.st = MpSt.nFirstComma ∨ s.st = MpSt.nFindAsterisk →
    s.crc = xor8 (s.buf.drop 1) ∧ 1 ≤ s.buf.length) ∧
  (s.st = MpSt.nChecksum1 →
    ∃ pre, s.buf = pre ++ [42] ∧ s.crc = xor8 (pre.drop 1)) ∧
  (s.st = MpSt.nChecksum2 →
    ∃ pre h1, s.buf = pre ++ [42, h1] ∧ s.crc = xor8 (pre.drop 1)) ∧
  (s.st = MpSt.nLineTerm →
    ∃ pre h1 h2, s.buf = pre ++ [42, h1, h2] ∧ s.crc = xor8 (pre.drop 1)) ∧
  (s.st = MpSt.rCrc2 →
    ∃ core c1, s.buf = core ++ [c1] ∧ s.rtcmCrc = c1 <<< 16) ∧
  (s.st = MpSt.rCrc3 →
    ∃ core c1 c2, s.buf = core ++ [c1, c2] ∧
      s.rtcmCrc = (c1 <<< 16) ||| (c2 <<< 8))

theorem mpScan_inv2 (s : MpPs) (d : Nat) : MpInv2 (mpScan s d) := by
  unfold mpScan mpPreambleTable
  by_cases h36 : d = 36
  · simp only [mpWalk, msgp_nmea_preamble, h36]
    norm_num
    refine ⟨fun _ => by simp [xor8], ?_, ?_, ?_, ?_, ?_⟩ <;>
      intro h <;> simp at h
  · by_cases hb5 : d = 0xB5
    · simp [mpWalk, msgp_nmea_preamble, msgp_ublox_preamble, h36, hb5]
      refine ⟨?_, ?_, ?_, ?_, ?_, ?_⟩ <;> intro h <;> simp at h
    · by_cases hd3 : d = 0xD3
      · simp [mpWalk, msgp_nmea_preamble, msgp_ublox_preamble, mpRtcmPreamble,
          h36, hb5, hd3]
        refine ⟨?_, ?_, ?_, ?_, ?_, ?_⟩ <;> intro h <;> simp at h
      · simp [mpWalk, msgp_nmea_preamble, msgp_ublox_preamble, mpRtcmPreamble,
          h36, hb5, hd3]
        refine ⟨?_, ?_, ?_, ?_, ?_, ?_⟩ <;> intro h <;> simp at h

theorem mpInit_inv2 : MpInv2 mpInitState := by
  refine ⟨?_, ?_, ?_, ?_, ?_, ?_⟩ <;> (intro h; simp [mpInitState] at h)

/-- Sentence-end validation: every message it emits is tagged with the
running protocol index and satisfies the NMEA delivered-frame check. -/
theorem mpNmeaValidateChecksum_events (cfg : MpCfg) (s : MpPs)
    (hJ : ∃ pre h1 h2, s.buf = pre ++ [42, h1, h2] ∧ s.crc = xor8 (pre.drop 1)) :
    ∀ b ty, MpEv.msg b ty ∈ (mpNmeaValidateChecksum cfg s).2 →
      ty = s.protocolIndex ∧ mpNmeaDelivered b := by
  obtain ⟨pre, h1, h2, hb, hc⟩ := hJ
  intro b ty hm
  have g2 : s.buf.getD (s.buf.length - 2) 0 = h1 := by
    rw [hb]
    have e : (pre ++ [42, h1, h2]).length - 2 = pre.length + 1 := by
      simp
    rw [e, List.getD_append_right _ _ _ _ (by omega)]
    have e2 : pre.length + 1 - pre.length = 1 := by omega
    rw [e2]
    rfl
  have g1 : s.buf.getD (s.buf.length - 1) 0 = h2 := by
    rw [hb]
    have e : (pre ++ [42, h1, h2]).length - 1 = pre.length + 2 := by
      simp
    rw [e, List.getD_append_right _ _ _ _ (by omega)]
    have e2 : pre.length + 2 - pre.length = 2 := by omega
    rw [e2]
    rfl
  unfold mpNmeaValidateChecksum at hm
  rw [g2, g1] at hm
  try dsimp only at hm
  by_cases hP : msgp_util_asciiToNibble h1 < 0 ∨ msgp_util_asciiToNibble h2 < 0
  · rw [if_pos hP] at hm
    simp only [Bool.false_eq_true, if_false] at hm
    split at hm <;> simp at hm
  · rw [if_neg hP] at hm
    by_cases hok : (msgp_util_asciiToNibble h1 * 16 + msgp_util_asciiToNibble h2 ==
        (((s.crc &&& 255) : Nat) : Int)) = true
    · rw [if_pos hok] at hm
      try dsimp only at hm
      simp only [List.mem_singleton] at hm
      injection hm with hmb hmty
      subst hmb
      subst hmty
      push_neg at hP
      refine ⟨rfl, pre, h1, h2, by rw [hb]; simp, hP.1, hP.2, ?_⟩
      have hokk := eq_of_beq hok
      rw [hc] at hokk
      exact hokk
    · rw [if_neg hok] at hm
      try dsimp only at hm
      split at hm <;> simp at hm

/-- Per-byte preservation of `MpInv2`, together with the delivered-frame
property of every emitted message: an NMEA message passes the XOR-8 check,
a u-blox message the Fletcher-8 check, an RTCM message the CRC24Q check. -/
theorem mp_step_inv2 (cfg : MpCfg) (s : MpPs) (d : Nat) (hI : MpInv s)
    (hJ : MpInv2 s) :
    MpInv2 (mpProcessByte cfg s d).1 ∧
      ∀ b ty, MpEv.msg b ty ∈ (mpProcessByte cfg s d).2 →
        (ty = 0 ∧ mpNmeaDelivered b) ∨ (ty = 1 ∧ mpUbloxDelivered b) ∨
          (ty = 3 ∧ mpRtcmDelivered b) := by
  obtain ⟨hcc, hn, hu2, huC, huI, huL, huB⟩ := hI
  obtain ⟨j1, j2, j3, j4, j5, j6⟩ := hJ
  unfold mpProcessByte
  by_cases hsc : s.st = MpSt.scanning
  · rw [if_pos hsc]
    exact ⟨mpScan_inv2 s d, by intro b ty hm; simp at hm⟩
  · rw [if_neg hsc]
    by_cases hov : cfg.bufferLength ≤ s.buf.length
    · rw [if_pos hov]
      exact ⟨mpScan_inv2 s d, by intro b ty hm; simp at hm⟩
    · rw [if_neg hov]
      simp only [hcc, Bool.false_eq_true, if_false]
      cases hst : s.st with
      | scanning => exact absurd hst hsc
      | nFirstComma =>
        obtain ⟨hcrc, hlen1⟩ := j1 (Or.inl hst)
        simp only [mpStateStep, hst, mpNmeaFindFirstCommaStep]
        by_cases h44 : d = 44
        · rw [if_pos h44]
          try dsimp only
          refine ⟨⟨fun _ => ⟨?_, by simp⟩, ?_, ?_, ?_, ?_, ?_⟩,
            by intro b ty hm; simp at hm⟩
          · rw [drop1_append hlen1 d, xor8_append, hcrc]
          · intro h; simp at h
          · intro h; simp at h
          · intro h; simp at h
          · intro h; simp at h
          · intro h; simp at h
        · rw [if_neg h44]
          by_cases h15 : s.nmeaName.length < 15
          · rw [if_pos h15]
            try dsimp only
            refine ⟨⟨fun _ => ⟨?_, by simp⟩, ?_, ?_, ?_, ?_, ?_⟩,
              by intro b ty hm; simp at hm⟩
            · rw [drop1_append hlen1 d, xor8_append, hcrc]
            · intro h; simp [hst] at h
            · intro h; simp [hst] at h
            · intro h; simp [hst] at h
            · intro h; simp [hst] at h
            · intro h; simp [hst] at h
          · rw [if_neg h15]
            try dsimp only
            exact ⟨mpScan_inv2 _ d, by intro b ty hm; simp at hm⟩
      | nFindAsterisk =>
        obtain ⟨hcrc, hlen1⟩ := j1 (Or.inr hst)
        simp only [mpStateStep, hst, mpNmeaFindAsteriskStep]
        by_cases h42 : d = 42
        · rw [if_pos h42]
          try dsimp only
          refine ⟨⟨?_, fun _ => ⟨s.buf, by rw [h42], hcrc⟩, ?_, ?_, ?_, ?_⟩,
            by intro b ty hm; simp at hm⟩
          · intro h; simp at h
          · intro h; simp at h
          · intro h; simp at h
          · intro h; simp at h
          · intro h; simp at h
        · rw [if_neg h42]
          by_cases hroom : cfg.bufferLength < (s.buf ++ [d]).length + 6
          · rw [if_pos hroom]
            try dsimp only
            exact ⟨mpScan_inv2 _ d, by intro b ty hm; simp at hm⟩
          · rw [if_neg hroom]
            try dsimp only
            refine ⟨⟨fun _ => ⟨?_, by simp⟩, ?_, ?_, ?_, ?_, ?_⟩,
              by intro b ty hm; simp at hm⟩
            · rw [drop1_append hlen1 d, xor8_append, hcrc]
            · intro h; simp [hst] at h
            · intro h; simp [hst] at h
            · intro h; simp [hst] at h
            · intro h; simp [hst] at h
            · intro h; simp [hst] at h
      | nChecksum1 =>
        obtain ⟨pre, hb, hcrc⟩ := j2 hst
        simp only [mpStateStep, hst, mpNmeaChecksumByte1Step]
        by_cases hhex : (0 : Int) ≤ msgp_util_asciiToNibble
            ((s.buf ++ [d]).getD ((s.buf ++ [d]).length - 1) 0)
        · rw [if_pos hhex]
          try dsimp only
          refine ⟨⟨?_, ?_, fun _ => ⟨pre, d, by rw [hb]; simp, hcrc⟩, ?_, ?_, ?_⟩,
            by intro b ty hm; simp at hm⟩
          · intro h; simp at h
          · intro h; simp at h
          · intro h; simp at h
          · intro h; simp at h
          · intro h; simp at h
        · rw [if_neg hhex]
          try dsimp only
          exact ⟨mpScan_inv2 _ d, by intro b ty hm; simp at hm⟩
      | nChecksum2 =>
        obtain ⟨pre, h1, hb, hcrc⟩ := j3 hst
        simp only [mpStateStep, hst, mpNmeaChecksumByte2Step]
        by_cases hhex : (0 : Int) ≤ msgp_util_asciiToNibble
            ((s.buf ++ [d]).getD ((s.buf ++ [d]).length - 1) 0)
        · rw [if_pos hhex]
          try dsimp only
          refine ⟨⟨?_, ?_, ?_, fun _ => ⟨pre, h1, d, by rw [hb]; simp, hcrc⟩,
              ?_, ?_⟩,
            by intro b ty hm; simp at hm⟩
          · intro h; simp at h
          · intro h; simp at h
          · intro h; simp at h
          · intro h; simp at h
          · intro h; simp at h
        · rw [if_neg hhex]
          try dsimp only
          exact ⟨mpScan_inv2 _ d, by intro b ty hm; simp at hm⟩
      | nLineTerm =>
        obtain ⟨pre, h1, h2, hb, hcrc⟩ := j4 hst
        have hidx := hn (Or.inr (Or.inr (Or.inr (Or.inr hst))))
        simp only [mpStateStep, hst, mpNmeaLineTerminationStep]
        try dsimp only
        refine ⟨mpScan_inv2 _ d, ?_⟩
        intro b ty hm
        have hdrop : (s.buf ++ [d]).dropLast = s.buf := by simp
        rw [hdrop] at hm
        have hres := mpNmeaValidateChecksum_events cfg
          { st := MpSt.nLineTerm, buf := s.buf, crc := s.crc,
            computeCrc := false, protocolIndex := s.protocolIndex,
            nmeaName := s.nmeaName,
            ubloxBytesRemaining := s.ubloxBytesRemaining,
            checksumA := s.checksumA, checksumB := s.checksumB,
            rtcmMessageLength := s.rtcmMessageLength,
            rtcmBytesRemaining := s.rtcmBytesRemaining, rtcmCrc := s.rtcmCrc }
          ⟨pre, h1, h2, hb, hcrc⟩ b ty hm
        left
        refine ⟨?_, hres.2⟩
        rw [hres.1]
        exact hidx
      | uSync2 =>
        simp only [mpStateStep, hst, mpUbloxSync2Step]
        by_cases h62 : d = 0x62
        · rw [if_neg (not_not_intro h62)]
          try dsimp only
          refine ⟨⟨?_, ?_, ?_, ?_, ?_, ?_⟩,
            by intro b ty hm; simp at hm⟩ <;> (intro h; simp at h)
        · rw [if_pos h62]
          try dsimp only
          exact ⟨mpScan_inv2 _ d, by intro b ty hm; simp at hm⟩
      | uClass =>
        simp only [mpStateStep, hst, mpUbloxReadClassStep]
        try dsimp only
        refine ⟨⟨?_, ?_, ?_, ?_, ?_, ?_⟩,
          by intro b ty hm; simp at hm⟩ <;> (intro h; simp at h)
      | uId =>
        simp only [mpStateStep, hst, mpUbloxReadIdStep, mpUCC_buf, mpUCC_st,
          mpUCC_protocolIndex, mpUCC_computeCrc, mpUCC_ubloxBytesRemaining]
        try dsimp only
        refine ⟨⟨?_, ?_, ?_, ?_, ?_, ?_⟩,
          by intro b ty hm; simp at hm⟩ <;> (intro h; simp at h)
      | uLenLo =>
        simp only [mpStateStep, hst, mpUbloxReadLengthLowStep, mpUCC_buf,
          mpUCC_st, mpUCC_protocolIndex, mpUCC_computeCrc,
          mpUCC_ubloxBytesRemaining]
        try dsimp only
        refine ⟨⟨?_, ?_, ?_, ?_, ?_, ?_⟩,
          by intro b ty hm; simp at hm⟩ <;> (intro h; simp at h)
      | uLenHi =>
        simp only [mpStateStep, hst, mpUbloxReadLengthHighStep, mpUCC_buf,
          mpUCC_st, mpUCC_protocolIndex, mpUCC_computeCrc,
          mpUCC_ubloxBytesRemaining]
        try dsimp only
        split
        next s' evs heq =>
          split at heq
          · simp at heq
          · split at heq
            · injection heq with hq1 hq2
              injection hq2 with hq2 hq3
              subst hq2
              subst hq3
              try dsimp only
              refine ⟨⟨?_, ?_, ?_, ?_, ?_, ?_⟩,
                by intro b ty hm; simp at hm⟩ <;> (intro h; simp at h)
            · injection heq with hq1 hq2
              injection hq2 with hq2 hq3
              subst hq2
              subst hq3
              try dsimp only
              refine ⟨⟨?_, ?_, ?_, ?_, ?_, ?_⟩,
                by intro b ty hm; simp at hm⟩ <;> (intro h; simp at h)
        next s' evs heq =>
          split at heq
          · injection heq with hq1 hq2
            injection hq2 with hq2 hq3
            subst hq2
            subst hq3
            exact ⟨mpScan_inv2 _ d, by intro b ty hm; simp at hm⟩
          · split at heq <;> simp at heq
      | uPayload =>
        simp only [mpStateStep, hst, mpUbloxReadPayloadStep, mpUCC_buf,
          mpUCC_st, mpUCC_protocolIndex, mpUCC_computeCrc,
          mpUCC_ubloxBytesRemaining]
        try dsimp only
        split
        next s' evs heq =>
          split at heq
          · injection heq with hq1 hq2
            injection hq2 with hq2 hq3
            subst hq2
            subst hq3
            try dsimp only
            refine ⟨⟨?_, ?_, ?_, ?_, ?_, ?_⟩,
              by intro b ty hm; simp at hm⟩ <;> (intro h; simp at h)
          · injection heq with hq1 hq2
            injection hq2 with hq2 hq3
            subst hq2
            subst hq3
            try dsimp only
            refine ⟨⟨?_, ?_, ?_, ?_, ?_, ?_⟩,
              by intro b ty hm; simp at hm⟩ <;> (intro h; simp [hst] at h)
        next s' evs heq =>
          split at heq <;> simp at heq
      | uCkA =>
        simp only [mpStateStep, hst, mpUbloxReadChecksumAStep]
        by_cases hda : d = s.checksumA
        · rw [if_pos (by exact hda)]
          try dsimp only
          refine ⟨⟨?_, ?_, ?_, ?_, ?_, ?_⟩,
            by intro b ty hm; simp at hm⟩ <;> (intro h; simp at h)
        · rw [if_neg hda]
          try dsimp only
          refine ⟨mpScan_inv2 _ d, ?_⟩
          intro b ty hm
          by_cases hbcc : cfg.badCrcConfigured = true <;> simp [hbcc] at hm
      | uCkB =>
        obtain ⟨hidx, core, hcore, hclen, hck⟩ := huB hst
        simp only [mpStateStep, hst, mpUbloxReadChecksumBStep]
        by_cases hdb : d = s.checksumB
        · rw [if_pos (by exact hdb)]
          try dsimp only
          refine ⟨mpScan_inv2 _ d, ?_⟩
          intro b ty hm
          simp at hm
          obtain ⟨hmb, hmty⟩ := hm
          subst hmb
          subst hmty
          right
          left
          refine ⟨hidx, ?_⟩
          unfold mpUbloxDelivered
          have hbuf2 : s.buf ++ [d] = core ++ [s.checksumA, d] := by
            rw [hcore]
            simp
          rw [hbuf2]
          have hlen2 : (core ++ [s.checksumA, d]).length = core.length + 2 := by
            simp
          rw [hlen2]
          refine ⟨by omega, ?_⟩
          have e2 : core.length + 2 - 2 = core.length := by omega
          have e1 : core.length + 2 - 1 = core.length + 1 := by omega
          rw [e2, e1]
          rw [List.getD_append_right _ _ _ _ (by omega),
            List.getD_append_right _ _ _ _ (by omega)]
          rw [List.take_left' rfl]
          simp only [Nat.sub_self]
          have e3 : core.length + 1 - core.length = 1 := by omega
          rw [e3]
          simp only [List.getD]
          rw [hdb, ← hck]
          rfl
        · rw [if_neg hdb]
          try dsimp only
          refine ⟨mpScan_inv2 _ d, ?_⟩
          intro b ty hm
          by_cases hbcc : cfg.badCrcConfigured = true <;> simp [hbcc] at hm
      | rLenLow =>
        simp only [mpStateStep, hst, mpRtcmReadLengthLowStep]
        try dsimp only
        split
        next s' evs heq =>
          split at heq
          · simp at heq
          · split at heq
            · injection heq with hq1 hq2
              injection hq2 with hq2 hq3
              subst hq2
              subst hq3
              try dsimp only
              refine ⟨⟨?_, ?_, ?_, ?_, ?_, ?_⟩,
                by intro b ty hm; simp at hm⟩ <;> (intro h; simp at h)
            · injection heq with hq1 hq2
              injection hq2 with hq2 hq3
              subst hq2
              subst hq3
              try dsimp only
              refine ⟨⟨?_, ?_, ?_, ?_, ?_, ?_⟩,
                by intro b ty hm; simp at hm⟩ <;> (intro h; simp at h)
        next s' evs heq =>
          split at heq
          · injection heq with hq1 hq2
            injection hq2 with hq2 hq3
            subst hq2
            subst hq3
            exact ⟨mpScan_inv2 _ d, by intro b ty hm; simp at hm⟩
          · split at heq <;> simp at heq
      | rPayload =>
        simp only [mpStateStep, hst, mpRtcmReadPayloadStep]
        try dsimp only
        split
        next s' evs heq =>
          split at heq
          · injection heq with hq1 hq2
            injection hq2 with hq2 hq3
            subst hq2
            subst hq3
            try dsimp only
            refine ⟨⟨?_, ?_, ?_, ?_, ?_, ?_⟩,
              by intro b ty hm; simp at hm⟩ <;> (intro h; simp at h)
          · injection heq with hq1 hq2
            injection hq2 with hq2 hq3
            subst hq2
            subst hq3
            try dsimp only
            refine ⟨⟨?_, ?_, ?_, ?_, ?_, ?_⟩,
              by intro b ty hm; simp at hm⟩ <;> (intro h; simp [hst] at h)
        next s' evs heq =>
          split at heq <;> simp at heq
      | rCrc1 =>
        simp only [mpStateStep, hst, mpRtcmReadCrc24_1Step]
        try dsimp only
        refine ⟨⟨?_, ?_, ?_, ?_, fun _ => ⟨s.buf, d, rfl, rfl⟩, ?_⟩,
          by intro b ty hm; simp at hm⟩ <;> (intro h; simp at h)
      | rCrc2 =>
        obtain ⟨core, c1, hb, hcrc⟩ := j5 hst
        simp only [mpStateStep, hst, mpRtcmReadCrc24_2Step]
        try dsimp only
        refine ⟨⟨?_, ?_, ?_, ?_, ?_,
            fun _ => ⟨core, c1, d, by rw [hb]; simp, by rw [hcrc]⟩⟩,
          by intro b ty hm; simp at hm⟩ <;> (intro h; simp at h)
      | rCrc3 =>
        obtain ⟨core, c1, c2, hb, hcrc⟩ := j6 hst
        simp only [mpStateStep, hst, mpRtcmReadCrc24_3Step]
        try dsimp only
        split
        next s' evs heq =>
          split at heq <;> exact absurd (congrArg Prod.fst heq) (by simp)
        next s' evs heq =>
          split at heq
          next hcond =>
            injection heq with hq1 hq2
            injection hq2 with hq2 hq3
            subst hq2
            subst hq3
            refine ⟨mpScan_inv2 _ d, ?_⟩
            intro b ty hm
            simp at hm
            obtain ⟨hmb, hmty⟩ := hm
            subst hmb
            subst hmty
            right
            right
            refine ⟨rfl, core, c1, c2, d, by rw [hb]; simp, ?_⟩
            have htake : (s.buf ++ [d]).take ((s.buf ++ [d]).length - 3) =
                core := by
              rw [hb]
              have e : ((core ++ [c1, c2]) ++ [d]).length - 3 = core.length := by
                simp
              rw [e, List.append_assoc]
              exact List.take_left' rfl
            have hcond2 : s.rtcmCrc ||| d = mpRtcmComputeCrc24
                ((s.buf ++ [d]).take ((s.buf ++ [d]).length - 3)) := hcond
            rw [htake] at hcond2
            rw [← hcond2, hcrc]
          next hcond =>
            injection heq with hq1 hq2
            injection hq2 with hq2 hq3
            subst hq2
            subst hq3
            exact ⟨mpScan_inv2 _ d, by intro b ty hm; simp at hm⟩

theorem mp_run_inv2 (cfg : MpCfg) (bs : List Nat) (s : MpPs) (hI : MpInv s)
    (hJ : MpInv2 s) :
    MpInv2 (mpRun cfg s bs).1 ∧
      ∀ b ty, MpEv.msg b ty ∈ (mpRun cfg s bs).2 →
        (ty = 0 ∧ mpNmeaDelivered b) ∨ (ty = 1 ∧ mpUbloxDelivered b) ∨
          (ty = 3 ∧ mpRtcmDelivered b) := by
  induction bs generalizing s with
  | nil => exact ⟨hJ, by intro b ty hm; simp [mpRun] at hm⟩
  | cons d rest ih =>
    obtain ⟨h1, h2⟩ := mp_step_inv2 cfg s d hI hJ
    obtain ⟨h3, h4⟩ := ih _ (mp_step_inv cfg s d hI).1 h1
    refine ⟨h3, ?_⟩
    intro b ty hm
    simp only [mpRun, List.mem_append] at hm
    rcases hm with hm | hm
    · exact h2 b ty hm
    · exact h4 b ty hm

/-- The NMEA sentence `$GPGGA,1*4B\r\n` as raw bytes. -/
def nmeaFrame : List Nat := [36, 71, 80, 71, 71, 65, 44, 49, 42, 52, 66, 13, 10]

/-- A minimal frame for the RTCM machine of this draft (two header bytes,
a 1-byte payload and the CRC24Q trailer `B2 13 DC` of `D3 01 42`). -/
def rtcmFrame : List Nat := [0xD3, 0x01, 0x42, 0xB2, 0x13, 0xDC]

/-- C1: `on_message` is never invoked for a frame unless the frame's bytes,
as delivered, satisfy the protocol-appropriate integrity check, or the
configured bad-CRC callback upgraded the frame to acceptance.  In the SEMP
framework every delivered frame satisfies the BT/SEMP CRC32 check (the
trailing little-endian CRC32 matches the finalized reflected CRC32 of the
preceding bytes) unless the callback rescued it (in this code base the
rescuing return value is `false`, meaning the callback's alternate check
succeeded).  In the MP draft every delivered frame satisfies the check of
the protocol that produced it — XOR-8 for NMEA (`ty = 0`), Fletcher-8 for
u-blox (`ty = 1`), CRC24Q for RTCM (`ty = 3`) — and this draft's callback
cannot upgrade a frame, since the machines ignore its result. -/
theorem c1_eom_integrity :
    (∀ (cfg : SempCfg) (input : List Nat), (∀ x ∈ input, x < 256) →
      ∀ b ty, SempEv.msg b ty ∈ (sempRun cfg sempInitState input).2 →
        btFrameOk b = true ∨ cfg.badCrc = some false) ∧
    (∀ (cfg : MpCfg) (input : List Nat) (b : List Nat) (ty : Nat),
      MpEv.msg b ty ∈ (mpRun cfg mpInitState input).2 →
        (ty = 0 ∧ mpNmeaDelivered b) ∨ (ty = 1 ∧ mpUbloxDelivered b) ∨
          (ty = 3 ∧ mpRtcmDelivered b)) := by
  constructor
  · intro cfg input hin b ty hmem
    have hInit : SempInv sempInitState := by
      constructor <;> intro h <;> simp [sempInitState] at h
    exact (semp_run_inv cfg input hin sempInitState hInit).2 b ty hmem
  · intro cfg input b ty hmem
    exact (mp_run_inv2 cfg input mpInitState mpInit_inv mpInit_inv2).2 b ty hmem

set_option maxRecDepth 100000 in
theorem c1_eom_integrity_witness :
    ((∀ x ∈ btFrame, x < 256) ∧
      (SempEv.msg btFrame 0 ∈ (sempRun cfg256 sempInitState btFrame).2 →
        btFrameOk btFrame = true ∨ cfg256.badCrc = some false)) ∧
    (MpEv.msg nmeaFrame 0 ∈ (mpRun mpCfg256 mpInitState nmeaFrame).2 ∧
      ((0 = 0 ∧ mpNmeaDelivered nmeaFrame) ∨
        (0 = 1 ∧ mpUbloxDelivered nmeaFrame) ∨
        (0 = 3 ∧ mpRtcmDelivered nmeaFrame))) ∧
    (MpEv.msg rtcmFrame 3 ∈ (mpRun mpCfg256 mpInitState rtcmFrame).2 ∧
      ((3 = 0 ∧ mpNmeaDelivered rtcmFrame) ∨
        (3 = 1 ∧ mpUbloxDelivered rtcmFrame) ∨
        (3 = 3 ∧ mpRtcmDelivered rtcmFrame))) :=
  ⟨⟨by decide, c1_eom_integrity.1 cfg256 btFrame (by decide) btFrame 0⟩,
   ⟨by decide, c1_eom_integrity.2 mpCfg256 nmeaFrame nmeaFrame 0 (by decide)⟩,
   ⟨by decide, c1_eom_integrity.2 mpCfg256 rtcmFrame rtcmFrame 3 (by decide)⟩⟩
